import Mathlib

/-!
Verification of the graph-database engine in `src/services/graphDatabaseService.ts`
(class `BaseGraphDB`) and `src/services/graph-database/platforms/SQLiteGraphDB.ts`.

The relational state (tables `nodes`, `node_properties`, `relationships`,
`relationship_properties`) is embedded as lists of rows; every SQL statement the
code issues is translated to the corresponding list operation on that state.
JSON property values travel through `JSON.stringify` on write and `JSON.parse`
on read; since this round trip is the identity on JSON values, property values
are modelled as opaque strings stored as-is.  Timestamps are threaded through
as an explicit `now` parameter, and generated UUIDs as explicit fresh-id
parameters.
-/

namespace GraphNote

/-- Property values (JSON values, opaque here; see header note). -/
abbrev Val := String

/-- Row of the `nodes` table: `nodes(id, type, label, is_independent, created_at, updated_at)`.
`is_independent` is stored as 0/1 in SQL and read back with `=== 1`; that
conversion is the identity on this `Bool` field. -/
structure NodeRow where
  id : String
  type : String
  label : String
  is_independent : Bool
  created_at : String
  updated_at : String
deriving DecidableEq, Repr

/-- Row of the `relationships` table: `relationships(id, source_id, target_id, type, created_at)`.
`source_id` / `target_id` are nullable foreign keys (`none` = SQL NULL). -/
structure EdgeRow where
  id : String
  source_id : Option String
  target_id : Option String
  type : String
  created_at : String
deriving DecidableEq, Repr

/-- Row of `node_properties(node_id, key, value)` or
`relationship_properties(relationship_id, key, value)`. -/
structure PropRow where
  owner : String
  key : String
  value : Val
deriving DecidableEq, Repr

/-- The four tables owned by the engine. -/
structure Store where
  nodes : List NodeRow
  nodeProps : List PropRow
  rels : List EdgeRow
  relProps : List PropRow
deriving DecidableEq, Repr

/-- The empty database (all four tables empty). -/
def emptyStore : Store := ⟨[], [], [], []⟩

/-- Modelled from the spec: the enum `GraphNodeType.RELATIONSHIP_TYPE` lives in
`src/models/GraphNode.ts`, which is absent from the snapshot; only the constant
matters, and it is kept abstract as a fixed string. -/
def RELATIONSHIP_TYPE : String := "relationship_type"

/-- Modelled from the spec: the enum `RelayRelationshipType.RELAY`; the code's
comments call these `_relay` edges. -/
def RELAY : String := "_relay"

/-- Error taxonomy of `src/services/graph-database/core/errors.ts` (the file is
absent from the snapshot; per the spec (§7) the kinds are distinct, and the
`database` kind records the wrapped cause's message inside its own message).
`generic` models a plain `Error` (for example the one thrown by `getNode`). -/
inductive Err where
  | nodeNotFound (id : String)
  | edgeNotFound (id : String)
  | validation (msg : String)
  | txError (msg : String)
  | database (msg : String)
  | generic (msg : String)
deriving DecidableEq, Repr

/-- Printable message of an error, used where the code interpolates
`error.message` into another message. -/
def errMessage : Err → String
  | .nodeNotFound id => "Node not found: " ++ id
  | .edgeNotFound id => "Edge not found: " ++ id
  | .validation m => m
  | .txError m => m
  | .database m => m
  | .generic m => m

/-- JavaScript truthiness of a nullable string (`null`, `undefined` and `""`
are falsy). -/
def jsTruthy : Option String → Bool
  | none => false
  | some s => s ≠ ""

/-- JavaScript object assignment `obj[key] = v`: overwrite in place if the key
is present, else append.  Property maps (`Record<string, any>`) are modelled as
association lists built with this operation. -/
def jsSet (l : List (String × Val)) (k : String) (v : Val) : List (String × Val) :=
  if l.any (fun kv => kv.1 == k) then
    l.map (fun kv => if kv.1 == k then (k, v) else kv)
  else
    l ++ [(k, v)]

/-- Reads a property map from a property table: rows of the owner in table
order, accumulated into a JS object (`properties[key] = JSON.parse(value)`). -/
def readProps (table : List PropRow) (ownerId : String) : List (String × Val) :=
  (table.filter (fun p => p.owner == ownerId)).foldl
    (fun acc p => jsSet acc p.key p.value) []

/-- Caller-supplied node payload for `addNode`
(`Omit<GraphNode, "created_at" | "updated_at">`). -/
structure NodeInput where
  id : Option String
  type : String
  label : String
  properties : Option (List (String × Val))
  is_independent : Option Bool
deriving DecidableEq, Repr

/-- Resolution `node.id || uuidv4()` of a caller-supplied id (`freshId`
stands for the generated `uuidv4()`). -/
def resolveId (given : Option String) (freshId : String) : String :=
  match given with
  | some i => if i = "" then freshId else i
  | none => freshId

/-- The demotion statement
`UPDATE nodes SET is_independent = 0, updated_at = ? WHERE label = ? AND id != ?`
(lines 454-457 and 548-551). -/
def demoteLabel (label id now : String) (l : List NodeRow) : List NodeRow :=
  l.map (fun n =>
    if n.label == label && n.id != id then
      { n with is_independent := false, updated_at := now }
    else n)

/-- Transcription of `addNode`'s `addNodeOperation`
(`graphDatabaseService.ts` lines 433-479), run directly on the connection
(the `isTransaction=false` path, also what runs inside an enclosing
transaction).  On failure the writes already issued remain (no savepoint);
the duplicate-id error models the engine rejecting the `INSERT` on the
primary key. -/
def addNodeOp (node : NodeInput) (freshId now : String) (s : Store) :
    Store × Except Err String :=
  let id := resolveId node.id freshId
  let labelExists := s.nodes.any (fun n => n.label == node.label)
  let indep := match node.is_independent with
    | some b => b
    | none => !labelExists
  -- if the label already exists, demote every other node with that label
  let s1 := if labelExists then
      { s with nodes := demoteLabel node.label id now s.nodes }
    else s
  if s1.nodes.any (fun n => n.id == id) then
    (s1, .error (.database "UNIQUE constraint failed: nodes.id"))
  else
    let s2 := { s1 with nodes := s1.nodes ++
        [NodeRow.mk id node.type node.label indep now now] }
    let s3 := { s2 with nodeProps := s2.nodeProps ++
        ((node.properties.getD []).map (fun kv => PropRow.mk id kv.1 kv.2)) }
    (s3, .ok id)

/-- `addNode` with `isTransaction = true`: the transaction wrapper rolls the
state back on failure (only the resulting state matters to the claims). -/
def addNodeApply (node : NodeInput) (freshId now : String) (s : Store) : Store :=
  match addNodeOp node freshId now s with
  | (s', .ok _) => s'
  | (_, .error _) => s

/-- Update payload for `updateNode` (`Partial<GraphNode>`); `none` = field
absent from the update object. -/
structure NodeUpdates where
  label : Option String := none
  type : Option String := none
  is_independent : Option Bool := none
  properties : Option (List (String × Val)) := none
deriving DecidableEq, Repr

/-- The `UPDATE nodes SET ... WHERE id = ?` statement assembled by
`updateNode` (lines 523-575): each provided column is set on the addressed
row; `indep` is the resolved `is_independent` value (explicit or
recomputed). -/
def applyNodeSets (id : String) (u : NodeUpdates) (indep : Option Bool)
    (now : String) (l : List NodeRow) : List NodeRow :=
  l.map (fun n =>
    if n.id == id then
      { n with
        label := u.label.getD n.label,
        type := u.type.getD n.type,
        is_independent := indep.getD n.is_independent,
        updated_at := now }
    else n)

/-- Transcription of `updateNode`'s `updateOperation`
(`graphDatabaseService.ts` lines 506-592), run directly on the connection. -/
def updateNodeOp (id : String) (u : NodeUpdates) (now : String) (s : Store) :
    Store × Except Err Unit :=
  if !(s.nodes.any (fun n => n.id == id)) then
    (s, .error (.nodeNotFound id))
  else
    -- basic columns
    let s1 :=
      if u.label.isSome || u.type.isSome || u.is_independent.isSome then
        -- resolve is_independent, demoting same-label siblings when the node
        -- becomes the sole holder of the new label
        let resolved : Store × Option Bool :=
          match u.label, u.is_independent with
          | some newLabel, none =>
            if s.nodes.any (fun n => n.label == newLabel && n.id != id) then
              (s, some false)
            else
              ({ s with nodes := demoteLabel newLabel id now s.nodes }, some true)
          | _, v => (s, v)
        let sa := resolved.1
        let indep := resolved.2
        if u.label.isSome || u.type.isSome || indep.isSome then
          { sa with nodes := applyNodeSets id u indep now sa.nodes }
        else sa
      else s
    -- properties: delete-then-insert full replacement
    let s2 := match u.properties with
      | some props =>
        { s1 with nodeProps :=
            s1.nodeProps.filter (fun p => p.owner != id) ++
            props.map (fun kv => PropRow.mk id kv.1 kv.2) }
      | none => s1
    (s2, .ok ())

/-- `updateNode` with `isTransaction = true` (rollback on failure). -/
def updateNodeApply (id : String) (u : NodeUpdates) (now : String) (s : Store) : Store :=
  match updateNodeOp id u now s with
  | (s', .ok _) => s'
  | (_, .error _) => s

/-- Transcription of `getNode` (`graphDatabaseService.ts` lines 2128-2148):
the node row plus its property map; a generic `Error` (message "... not found")
when absent. -/
def getNodeOp (s : Store) (id : String) :
    Except Err (NodeRow × List (String × Val)) :=
  match s.nodes.find? (fun n => n.id == id) with
  | none => .error (.generic ("Node with id " ++ id ++ " not found"))
  | some n => .ok (n, readProps s.nodeProps id)

/-- View of a node produced by `getNodes` (lines 956-1019): a raw `type` of
`""` is replaced by `"node"` (`nodeRow.type || "node"`). -/
structure NodeView where
  id : String
  type : String
  label : String
  is_independent : Bool
  created_at : String
  updated_at : String
  properties : List (String × Val)
deriving DecidableEq, Repr

/-- Transcription of `getNodes` (lines 956-1019). -/
def getNodes (s : Store) : List NodeView :=
  s.nodes.map (fun n =>
    { id := n.id
      type := if n.type = "" then "node" else n.type
      label := n.label
      is_independent := n.is_independent
      created_at := n.created_at
      updated_at := n.updated_at
      properties := readProps s.nodeProps n.id })

/-- Logical edge view produced by `getEdge` / `getEdges`.  For synthesized
structured edges the endpoint variables start as the JS string `""`
(`some ""` here) and become `none` only if assigned a NULL column;
`relayEdgeIds` carries `structuredMeta.relayEdgeIds`. -/
structure EdgeView where
  id : String
  source_id : Option String
  target_id : Option String
  type : String
  created_at : String
  properties : List (String × Val)
  isStructured : Bool
  relayEdgeIds : Option (String × String)
deriving DecidableEq, Repr

/-- The two RELAY edges touching a relationship node, as queried by
`SELECT * FROM relationships WHERE (source_id = ? OR target_id = ?) AND type = ?`. -/
def relaysTouching (s : Store) (id : String) : List EdgeRow :=
  s.rels.filter (fun e =>
    (e.source_id == some id || e.target_id == some id) && e.type == RELAY)

/-- Direction resolution loop over the relay edges (lines 1858-1864 and
1411-1417): an edge out of the relationship node supplies the logical target,
an edge into it supplies the logical source. -/
def synthDirections (relId : String) (relays : List EdgeRow) :
    Option String × Option String :=
  relays.foldl (fun acc e =>
      if e.source_id == some relId then (acc.1, e.target_id)
      else if e.target_id == some relId then (e.source_id, acc.2)
      else acc)
    (some "", some "")

/-- Transcription of `getEdge` (lines 1834-1928).  For a RELATIONSHIP_TYPE
node: requires exactly two relay edges and string-typed direction results,
otherwise `EdgeNotFoundError`; the returned `properties` comes from
`relNode.properties || {}` on the raw SQL row, which has no `properties`
column, hence always the empty map. -/
def getEdgeOp (s : Store) (id : String) : Except Err EdgeView :=
  match s.nodes.find? (fun n => n.id == id && n.type == RELATIONSHIP_TYPE) with
  | some relNode =>
    match relaysTouching s id with
    | [a, b] =>
      let dirs := synthDirections id [a, b]
      if dirs.1.isSome && dirs.2.isSome then
        .ok { id := relNode.id
              source_id := dirs.1
              target_id := dirs.2
              type := relNode.label
              created_at := relNode.created_at
              properties := []
              isStructured := true
              relayEdgeIds := some (a.id, b.id) }
      else .error (.edgeNotFound id)
    | _ => .error (.edgeNotFound id)
  | none =>
    match s.rels.find? (fun e => e.id == id) with
    | none => .error (.edgeNotFound id)
    | some row =>
      .ok { id := row.id
            source_id := row.source_id
            target_id := row.target_id
            type := row.type
            created_at := row.created_at
            properties := readProps s.relProps id
            isStructured := false
            relayEdgeIds := none }

/-- Transcription of `getEdges` (lines 1367-1481): first a synthesized view
for every RELATIONSHIP_TYPE node with exactly two relay edges (its
`properties` again `relNode.properties || {} = {}` on the raw row), then every
relationship row that is neither a relay edge nor one of the covered relay
edges, as a plain edge with its stored properties. -/
def getEdges (s : Store) : List EdgeView :=
  let structured : List (EdgeView × List String) :=
    (s.nodes.filter (fun n => n.type == RELATIONSHIP_TYPE)).filterMap (fun rn =>
      match relaysTouching s rn.id with
      | [a, b] =>
        let dirs := synthDirections rn.id [a, b]
        some ({ id := rn.id
                source_id := dirs.1
                target_id := dirs.2
                type := rn.label
                created_at := rn.created_at
                properties := []
                isStructured := true
                relayEdgeIds := some (a.id, b.id) }, [a.id, b.id])
      | _ => none)
  let processed : List String := (structured.map Prod.snd).flatten
  let plain : List EdgeView :=
    (s.rels.filter (fun e => !(processed.contains e.id) && e.type != RELAY)).map
      (fun e =>
        { id := e.id
          source_id := e.source_id
          target_id := e.target_id
          type := e.type
          created_at := e.created_at
          properties := readProps s.relProps e.id
          isStructured := false
          relayEdgeIds := none })
  structured.map Prod.fst ++ plain

/-- `DeleteMode` from `core/types.ts`. -/
inductive DeleteMode where
  | CASCADE
  | KEEP_CONNECTED
deriving DecidableEq, Repr

/-- Deletes one relationship row and its properties (the
`DELETE FROM relationship_properties ...; DELETE FROM relationships ...` pair). -/
def deleteEdgeRows (edgeId : String) (s : Store) : Store :=
  { s with
    relProps := s.relProps.filter (fun p => p.owner != edgeId)
    rels := s.rels.filter (fun e => e.id != edgeId) }

/-- Case 1 of `deleteNode` / `deleteNodeInternal` (lines 650-696 and 843-880):
full deletion of a RELATIONSHIP_TYPE node — the first incoming relay edge (with
its properties), then the first outgoing relay edge (queried after that
deletion), then the node's properties and the node itself; the delete mode is
ignored. -/
def deleteRelNodeCase1 (id : String) (s : Store) : Store :=
  let s1 := match (s.rels.filter (fun e =>
      e.target_id == some id && e.type == RELAY)).head? with
    | some e => deleteEdgeRows e.id s
    | none => s
  let s2 := match (s1.rels.filter (fun e =>
      e.source_id == some id && e.type == RELAY)).head? with
    | some e => deleteEdgeRows e.id s1
    | none => s1
  { s2 with
    nodeProps := s2.nodeProps.filter (fun p => p.owner != id)
    nodes := s2.nodes.filter (fun n => n.id != id) }

/-- Transcription of `deleteNodeInternal` (lines 810-954), fuel-indexed to
model its general recursion (the recursive calls are always made on nodes
checked to be RELATIONSHIP_TYPE, which return without recursing, so any
positive fuel suffices on those paths). -/
def deleteNodeInternal : Nat → String → DeleteMode → Store → Store × Except Err Unit
  | 0, _, _, s => (s, .error (.database "recursion fuel exhausted"))
  | fuel + 1, id, mode, s =>
    match s.nodes.find? (fun n => n.id == id) with
    | none => (s, .error (.nodeNotFound id))
    | some n =>
      if n.type = RELATIONSHIP_TYPE then (deleteRelNodeCase1 id s, .ok ())
      else if mode = .CASCADE then
        -- outgoing structured partners (type checked by a direct query)
        let outRelays := s.rels.filter (fun e =>
          e.source_id == some id && e.type == RELAY)
        let s1 := outRelays.foldl (fun acc e =>
          match e.target_id with
          | none => acc
          | some rid =>
            match acc.nodes.find? (fun m => m.id == rid) with
            | none => acc
            | some m =>
              if m.type = RELATIONSHIP_TYPE then
                (deleteNodeInternal fuel rid .CASCADE acc).1
              else acc) s
        -- incoming structured partners
        let inRelays := s1.rels.filter (fun e =>
          e.target_id == some id && e.type == RELAY)
        let s2 := inRelays.foldl (fun acc e =>
          match e.source_id with
          | none => acc
          | some rid =>
            match acc.nodes.find? (fun m => m.id == rid) with
            | none => acc
            | some m =>
              if m.type = RELATIONSHIP_TYPE then
                (deleteNodeInternal fuel rid .CASCADE acc).1
              else acc) s1
        -- direct non-relay edges: delete the properties of each, then batch
        -- delete the relationship rows
        let direct := s2.rels.filter (fun e =>
          (e.source_id == some id || e.target_id == some id) && e.type != RELAY)
        let s3 :=
          if direct.isEmpty then s2
          else
            let s3a := { s2 with relProps := s2.relProps.filter (fun p =>
              !(direct.any (fun e => e.id == p.owner))) }
            { s3a with rels := s3a.rels.filter (fun e =>
              !((e.source_id == some id || e.target_id == some id) &&
                e.type != RELAY)) }
        let s4 := { s3 with
          nodeProps := s3.nodeProps.filter (fun p => p.owner != id)
          nodes := s3.nodes.filter (fun m => m.id != id) }
        (s4, .ok ())
      else
        -- KEEP_CONNECTED is not handled by the internal helper
        (s, .ok ())

/-- Partner handling of `deleteNode`'s CASCADE case (lines 703-749): fetch the
node at the other end of a relay edge via `getNode`; if it is a
RELATIONSHIP_TYPE node, delete it through `deleteNodeInternal`, ignoring
errors (`catch { /* ignore */ }` keeps the writes made so far). -/
def cascadePartnerStep (fuel : Nat) (endpoint : Option String) (s : Store) : Store :=
  match endpoint with
  | none => s
  | some rid =>
    match getNodeOp s rid with
    | .error _ => s
    | .ok (m, _) =>
      if m.type = RELATIONSHIP_TYPE then
        (deleteNodeInternal fuel rid .CASCADE s).1
      else s

/-- Transcription of `deleteNode`'s `deleteOperation` (lines 637-786), run on
the connection.  `getNode`'s generic not-found error is mapped to
`NodeNotFoundError`. -/
def deleteNodeOp (id : String) (mode : DeleteMode) (s : Store) :
    Store × Except Err Unit :=
  match getNodeOp s id with
  | .error _ => (s, .error (.nodeNotFound id))
  | .ok (n, _) =>
    if n.type = RELATIONSHIP_TYPE then (deleteRelNodeCase1 id s, .ok ())
    else if mode = .CASCADE then
      let fuel := s.nodes.length + 1
      let outRelays := s.rels.filter (fun e =>
        e.source_id == some id && e.type == RELAY)
      let s1 := outRelays.foldl (fun acc e => cascadePartnerStep fuel e.target_id acc) s
      let inRelays := s1.rels.filter (fun e =>
        e.target_id == some id && e.type == RELAY)
      let s2 := inRelays.foldl (fun acc e => cascadePartnerStep fuel e.source_id acc) s1
      -- per-edge deletion of the remaining direct (non-relay) edges
      let direct := s2.rels.filter (fun e =>
        (e.source_id == some id || e.target_id == some id) && e.type != RELAY)
      let s3 := direct.foldl (fun acc e => deleteEdgeRows e.id acc) s2
      let s4 := { s3 with
        nodeProps := s3.nodeProps.filter (fun p => p.owner != id)
        nodes := s3.nodes.filter (fun m => m.id != id) }
      (s4, .ok ())
    else
      -- KEEP_CONNECTED: drop properties, null out endpoints, drop the node
      let s1 := { s with nodeProps := s.nodeProps.filter (fun p => p.owner != id) }
      let s2 := { s1 with rels := s1.rels.map (fun e : EdgeRow =>
        if e.source_id == some id then { e with source_id := none } else e) }
      let s3 := { s2 with rels := s2.rels.map (fun e : EdgeRow =>
        if e.target_id == some id then { e with target_id := none } else e) }
      let s4 := { s3 with nodes := s3.nodes.filter (fun m => m.id != id) }
      (s4, .ok ())

/-- `deleteNode` with `isTransaction = true` (rollback on failure). -/
def deleteNodeTx (id : String) (mode : DeleteMode) (s : Store) :
    Store × Except Err Unit :=
  match deleteNodeOp id mode s with
  | (s', .ok _) => (s', .ok ())
  | (_, .error e) => (s, .error e)

/-- Transcription of `deleteEdge` (lines 1306-1365): an id naming a
RELATIONSHIP_TYPE node is routed to `deleteNode(id, CASCADE)`; otherwise the
plain relationship row and its properties are removed
(`EdgeNotFoundError` when absent). -/
def deleteEdgeTx (id : String) (s : Store) : Store × Except Err Unit :=
  if s.nodes.any (fun n => n.id == id && n.type == RELATIONSHIP_TYPE) then
    deleteNodeTx id .CASCADE s
  else if s.rels.any (fun e => e.id == id) then
    (deleteEdgeRows id s, .ok ())
  else
    (s, .error (.edgeNotFound id))

/-- Caller-supplied edge payload for `addEdge` (`Omit<GraphEdge, "created_at">`);
`none` endpoints cover both absent and `null` fields, which `addEdge` treats
identically (both are falsy and inserted as NULL-ish values). -/
structure EdgeInput where
  id : Option String
  source_id : Option String
  target_id : Option String
  type : String
  properties : Option (List (String × Val))
deriving DecidableEq, Repr

/-- Transcription of `addEdge`'s `addEdgeOperation` (lines 1032-1080), run
directly on the connection: endpoints are validated only when truthy
(`if (edge.source_id)`), then the row and its properties are inserted.  The
duplicate-id error again models the primary-key constraint. -/
def addEdgeOp (edge : EdgeInput) (freshId now : String) (s : Store) :
    Store × Except Err String :=
  let id := match edge.id with
    | some i => if i = "" then freshId else i
    | none => freshId
  if jsTruthy edge.source_id &&
      !(s.nodes.any (fun n => some n.id == edge.source_id)) then
    (s, .error (.nodeNotFound (edge.source_id.getD "")))
  else if jsTruthy edge.target_id &&
      !(s.nodes.any (fun n => some n.id == edge.target_id)) then
    (s, .error (.nodeNotFound (edge.target_id.getD "")))
  else if s.rels.any (fun e => e.id == id) then
    (s, .error (.database "UNIQUE constraint failed: relationships.id"))
  else
    let s1 := { s with rels := s.rels ++
        [EdgeRow.mk id edge.source_id edge.target_id edge.type now] }
    let s2 := { s1 with relProps := s1.relProps ++
        ((edge.properties.getD []).map (fun kv => PropRow.mk id kv.1 kv.2)) }
    (s2, .ok id)

/-- Update payload for `updateEdge` (`Partial<GraphEdge>`): the outer `Option`
distinguishes an absent field (`none`, JS `undefined`) from a present one;
a present endpoint field may itself be `null` (`some none`). -/
structure EdgeUpdates where
  source_id : Option (Option String) := none
  target_id : Option (Option String) := none
  type : Option String := none
  properties : Option (List (String × Val)) := none
deriving DecidableEq, Repr

/-- Transcription of `updateEdge`'s `updateEdgeOperation` (lines 1129-1261),
run directly on the connection and fuel-indexed for the recursive calls made
when retargeting a structured relationship's relay legs (those calls resolve
to plain edges, so small fuel suffices in practice).  On failure the writes
already issued remain. -/
def updateEdgeOp : Nat → String → EdgeUpdates → String → Store → Store × Except Err Unit
  | 0, _, _, _, s => (s, .error (.database "recursion fuel exhausted"))
  | fuel + 1, id, u, now, s =>
    if s.nodes.any (fun n => n.id == id && n.type == RELATIONSHIP_TYPE) then
      -- structured relationship: update the central node, then the relay legs
      let nodeUpd : NodeUpdates :=
        { label := u.type, properties := u.properties }
      let step1 : Store × Except Err Unit :=
        if u.type.isSome || u.properties.isSome then
          updateNodeOp id nodeUpd now s
        else (s, .ok ())
      match step1 with
      | (s1, .error e) => (s1, .error e)
      | (s1, .ok _) =>
        match getEdgeOp s1 id with
        | .error e => (s1, .error e)
        | .ok view =>
          match view.relayEdgeIds with
          | none => (s1, .error (.generic "Structured relationship error"))
          | some (r1, r2) =>
            let step2 : Store × Except Err Unit :=
              match u.source_id with
              | some v => updateEdgeOp fuel r1 { source_id := some v } now s1
              | none => (s1, .ok ())
            match step2 with
            | (s2, .error e) => (s2, .error e)
            | (s2, .ok _) =>
              match u.target_id with
              | some v => updateEdgeOp fuel r2 { target_id := some v } now s2
              | none => (s2, .ok ())
    else if !(s.rels.any (fun e => e.id == id)) then
      (s, .error (.edgeNotFound id))
    else
      -- plain edge: validate truthy endpoint updates, then apply the SET list
      let su : Store × Except Err Unit :=
        if u.source_id.isSome || u.target_id.isSome || u.type.isSome then
          if jsTruthy (u.source_id.getD none) &&
              !(s.nodes.any (fun n => some n.id == u.source_id.getD none)) then
            (s, .error (.nodeNotFound ((u.source_id.getD none).getD "")))
          else if jsTruthy (u.target_id.getD none) &&
              !(s.nodes.any (fun n => some n.id == u.target_id.getD none)) then
            (s, .error (.nodeNotFound ((u.target_id.getD none).getD "")))
          else
            ({ s with rels := s.rels.map (fun e =>
                if e.id == id then
                  { e with
                    source_id := u.source_id.getD e.source_id,
                    target_id := u.target_id.getD e.target_id,
                    type := u.type.getD e.type }
                else e) }, .ok ())
        else (s, .ok ())
      match su with
      | (s1, .error e) => (s1, .error e)
      | (s1, .ok _) =>
        match u.properties with
        | some props =>
          ({ s1 with relProps :=
              s1.relProps.filter (fun p => p.owner != id) ++
              props.map (fun kv => PropRow.mk id kv.1 kv.2) }, .ok ())
        | none => (s1, .ok ())

/-- BFS queue entry of `findPath` (lines 1510-1512). -/
structure QItem where
  nodeId : String
  path : List String
deriving DecidableEq, Repr

/-- Processes the items of one BFS level in order (lines 1545-1567): returns
the path immediately when the end node is dequeued, otherwise enqueues the
unvisited out-neighbors of each item. -/
def runLevel (adjOf : String → List (String × String)) (endId : String) :
    List QItem → List QItem → List String →
    Option (List String) × List QItem × List String
  | [], next, vis => (none, next, vis)
  | item :: items, next, vis =>
    if item.nodeId = endId then (some item.path, next, vis)
    else
      let stepped := (adjOf item.nodeId).foldl
        (fun (acc : List QItem × List String) nb =>
          if acc.2.contains nb.2 then acc
          else (acc.1 ++ [⟨nb.2, item.path ++ [nb.1]⟩], nb.2 :: acc.2))
        (next, vis)
      runLevel adjOf endId items stepped.1 stepped.2

/-- The depth loop of `findPath` (line 1542): at most `maxDepth` levels are
processed, and the loop also stops on an empty queue. -/
def bfsLoop (adjOf : String → List (String × String)) (endId : String) :
    Nat → List QItem → List String → Option (List String)
  | 0, _, _ => none
  | fuel + 1, queue, vis =>
    if queue.isEmpty then none
    else
      match runLevel adjOf endId queue [] vis with
      | (some p, _, _) => some p
      | (none, next, vis') => bfsLoop adjOf endId fuel next vis'

/-- JS `Map.get` over a map built by iterated `Map.set` (last binding wins);
only edges with truthy ids are inserted (lines 1517-1521). -/
def edgesMapGet (edges : List EdgeView) (k : String) : Option EdgeView :=
  (edges.filter (fun e => e.id != "" && e.id == k)).getLast?

/-- Transcription of `findPath` (lines 1483-1578): endpoint existence checks,
adjacency built from `getEdges()` restricted to edges with truthy id and
endpoints, BFS over at most `maxDepth` levels, and the found edge-id path
mapped back through the edge map (dropping unknown ids). -/
def findPath (s : Store) (startId endId : String) (maxDepth : Nat) :
    Except Err (List EdgeView) :=
  if !(s.nodes.any (fun n => n.id == startId)) then
    .error (.nodeNotFound startId)
  else if !(s.nodes.any (fun n => n.id == endId)) then
    .error (.nodeNotFound endId)
  else
    let allEdges := getEdges s
    let adjEdges := allEdges.filter (fun e =>
      jsTruthy e.source_id && jsTruthy e.target_id && e.id != "")
    let adjOf : String → List (String × String) := fun nid =>
      (adjEdges.filter (fun e => e.source_id == some nid)).map
        (fun e => (e.id, e.target_id.getD ""))
    match bfsLoop adjOf endId maxDepth [⟨startId, []⟩] [startId] with
    | some path => .ok (path.filterMap (edgesMapGet allEdges))
    | none => .ok []

/-- `ImportMode` from `core/types.ts`. -/
inductive ImportMode where
  | REPLACE
  | MERGE
deriving DecidableEq, Repr

/-- A node object of the parsed import JSON (`parsedData.data.nodes[i]`);
`type`/`label` are taken as present, as they are in every payload produced by
`exportToJson`. -/
structure ImpNode where
  id : Option String
  type : String
  label : String
  properties : Option (List (String × Val))
deriving DecidableEq, Repr

/-- An edge object of the parsed import JSON (`parsedData.data.edges[i]`);
`none` endpoints cover absent and `null` fields (both falsy in the checks
the importer performs, both NULL-ish on insertion). -/
structure ImpEdge where
  id : Option String
  source_id : Option String
  target_id : Option String
  type : String
  properties : Option (List (String × Val))
deriving DecidableEq, Repr

/-- The `data` payload of the exchange format. -/
structure ImportData where
  nodes : List ImpNode
  edges : List ImpEdge
deriving DecidableEq, Repr

/-- `ImportResult` from `core/types.ts`. -/
structure ImportResult where
  success : Bool
  nodesImported : Nat
  edgesImported : Nat
  errors : List String
deriving DecidableEq, Repr

/-- Node-import phase of `importFromJson` (lines 1982-2025): per-item
processing with errors collected, MERGE updating existing ids.  Returns the
state, the imported node ids, the error messages and the number of consumed
fresh ids. -/
def importNodesPhase (mode : ImportMode) (now : String) (fresh : Nat → String)
    (items : List ImpNode) (s : Store) :
    Store × List String × List String × Nat :=
  items.foldl
    (fun (acc : Store × List String × List String × Nat) n =>
      let st := acc.1
      let ids := acc.2.1
      let errs := acc.2.2.1
      let k := acc.2.2.2
      let nid := n.id.getD ""
      if mode = .MERGE && jsTruthy n.id then
        match getNodeOp st nid with
        | .ok _ =>
          -- existing node: update (an update failure falls back to addNode
          -- inside the same catch, and a failure of that is a per-item error)
          match updateNodeOp nid
              { label := some n.label, type := some n.type,
                properties := n.properties } now st with
          | (st', .ok _) => (st', ids ++ [nid], errs, k)
          | (st', .error _) =>
            match addNodeOp ⟨n.id, n.type, n.label, n.properties, none⟩
                (fresh k) now st' with
            | (st'', .ok newId) => (st'', ids ++ [newId], errs, k + 1)
            | (st'', .error e) =>
              (st'', ids, errs ++ ["Failed to import node " ++
                (if jsTruthy n.id then nid else "unknown") ++ ": " ++
                errMessage e], k + 1)
        | .error _ =>
          match addNodeOp ⟨n.id, n.type, n.label, n.properties, none⟩
              (fresh k) now st with
          | (st', .ok newId) => (st', ids ++ [newId], errs, k + 1)
          | (st', .error e) =>
            (st', ids, errs ++ ["Failed to import node " ++
              (if jsTruthy n.id then nid else "unknown") ++ ": " ++
              errMessage e], k + 1)
      else
        match addNodeOp ⟨n.id, n.type, n.label, n.properties, none⟩
            (fresh k) now st with
        | (st', .ok newId) => (st', ids ++ [newId], errs, k + 1)
        | (st', .error e) =>
          (st', ids, errs ++ ["Failed to import node " ++
            (if jsTruthy n.id then nid else "unknown") ++ ": " ++
            errMessage e], k + 1))
    (s, [], [], 0)

/-- The referential check applied to each imported edge (lines 2036-2042):
a truthy endpoint must be a member of the set of node ids imported by this
call (`importedNodesSet`); falsy endpoints pass. -/
def edgeEndpointsOk (importedIds : List String) (e : ImpEdge) : Bool :=
  (if jsTruthy e.source_id then importedIds.contains (e.source_id.getD "")
   else true) &&
  (if jsTruthy e.target_id then importedIds.contains (e.target_id.getD "")
   else true)

/-- The per-item error message recorded for an edge whose endpoint check
fails (lines 2044-2060). -/
def edgeSkipMsg (importedIds : List String) (e : ImpEdge) : String :=
  let eid := if jsTruthy e.id then e.id.getD "" else "unknown"
  if !(if jsTruthy e.source_id then importedIds.contains (e.source_id.getD "")
       else true) then
    "Failed to import edge " ++ eid ++ ": Source node " ++
      (e.source_id.getD "") ++ " does not exist"
  else
    "Failed to import edge " ++ eid ++ ": Target node " ++
      (e.target_id.getD "") ++ " does not exist"

/-- One step of the edge-import loop (lines 2034-2106): the endpoint check,
then MERGE update-or-add / direct add, with per-item error collection. -/
def importEdgeStepCore (mode : ImportMode) (now : String) (fresh : Nat → String)
    (importedIds : List String) (st : Store) (eids : List String) (k : Nat)
    (e : ImpEdge) : Store × List String × List String × Nat :=
  if !(edgeEndpointsOk importedIds e) then
    (st, eids, [edgeSkipMsg importedIds e], k)
  else
    let eid := e.id.getD ""
    let fuel := st.nodes.length + 2
    let addMsg : Err → String := fun err =>
      "Failed to import edge " ++
        (if jsTruthy e.id then eid else "unknown") ++ ": " ++ errMessage err
    if mode = .MERGE && jsTruthy e.id then
      match getEdgeOp st eid with
      | .ok _ =>
        match updateEdgeOp fuel eid
            { source_id := some e.source_id, target_id := some e.target_id,
              type := some e.type, properties := e.properties } now st with
        | (st', .ok _) => (st', eids ++ [eid], [], k)
        | (st', .error _) =>
          match addEdgeOp ⟨e.id, e.source_id, e.target_id, e.type, e.properties⟩
              (fresh k) now st' with
          | (st'', .ok newId) => (st'', eids ++ [newId], [], k + 1)
          | (st'', .error err) => (st'', eids, [addMsg err], k + 1)
      | .error _ =>
        match addEdgeOp ⟨e.id, e.source_id, e.target_id, e.type, e.properties⟩
            (fresh k) now st with
        | (st', .ok newId) => (st', eids ++ [newId], [], k + 1)
        | (st', .error err) => (st', eids, [addMsg err], k + 1)
    else
      match addEdgeOp ⟨e.id, e.source_id, e.target_id, e.type, e.properties⟩
          (fresh k) now st with
      | (st', .ok newId) => (st', eids ++ [newId], [], k + 1)
      | (st', .error err) => (st', eids, [addMsg err], k + 1)

/-- One step of the edge-import loop, threading the shared error list: the
messages the item produced (computed by `importEdgeStepCore`) are appended to
the accumulator. -/
def importEdgeStep (mode : ImportMode) (now : String) (fresh : Nat → String)
    (importedIds : List String)
    (acc : Store × List String × List String × Nat) (e : ImpEdge) :
    Store × List String × List String × Nat :=
  let r := importEdgeStepCore mode now fresh importedIds acc.1 acc.2.1 acc.2.2.2 e
  (r.1, r.2.1, acc.2.2.1 ++ r.2.2.1, r.2.2.2)

/-- Edge-import phase of `importFromJson` (lines 2027-2106). -/
def importEdgesPhase (mode : ImportMode) (now : String) (fresh : Nat → String)
    (importedIds : List String) (items : List ImpEdge)
    (start : Store × List String × List String × Nat) :
    Store × List String × List String × Nat :=
  items.foldl (importEdgeStep mode now fresh importedIds) start

/-- Transcription of `importFromJson` (lines 1931-2125) after JSON parsing
and structure validation have succeeded: REPLACE truncates all four tables,
nodes are imported, then edges are imported against the set of node ids that
this call imported; the whole run happens in one engine transaction whose
begin/commit are assumed to succeed. -/
def importFromJson (d : ImportData) (mode : ImportMode) (now : String)
    (fresh : Nat → String) (s : Store) : Store × ImportResult :=
  let s0 := if mode = .REPLACE then emptyStore else s
  let np := importNodesPhase mode now fresh d.nodes s0
  let importedIds := np.2.1
  let ep := importEdgesPhase mode now fresh importedIds d.edges
    (np.1, [], np.2.2.1, np.2.2.2)
  let errs := ep.2.2.1
  (ep.1,
   { success := errs.isEmpty
     nodesImported := importedIds.length
     edgesImported := ep.2.1.length
     errors := errs })

/-- The `data` object built by `exportToJson` (lines 1737-1763): all nodes as
returned by `getNodes`, all logical edges as returned by `getEdges`.  The JSON
string layer (`JSON.stringify` here, `JSON.parse` in the importer) is the
identity on this payload and is not modelled. -/
def exportData (s : Store) : ImportData :=
  { nodes := (getNodes s).map (fun v =>
      { id := some v.id, type := v.type, label := v.label,
        properties := some v.properties })
    edges := (getEdges s).map (fun e =>
      { id := some e.id, source_id := e.source_id, target_id := e.target_id,
        type := e.type, properties := some e.properties }) }

/-- Connection state seen by `SQLiteGraphDB.transaction` (its
`isInTransaction` flag and the engine's current data): `snapshot = some σ₀`
means a transaction is active with `σ₀` as the rollback point. -/
structure TxConn (σ : Type) where
  cur : σ
  snapshot : Option σ
deriving Repr

/-- Outcome of the engine's `commitTransaction` call, supplied as a parameter
of the run: `none` = success, `some msg` = rejection with that message. -/
abbrev CommitOutcome := Option String

/-- Occurrence of `sub` as a contiguous run of `l` (helper for `strIncludes`). -/
def charsInclude (sub : List Char) : List Char → Bool
  | [] => sub.isEmpty
  | c :: t => sub.isPrefixOf (c :: t) || charsInclude sub t

/-- JS `string.includes(sub)`: `sub` occurs as a substring of `s`. -/
def strIncludes (s sub : String) : Bool :=
  charsInclude sub.toList s.toList

/-- Transcription of `SQLiteGraphDB.transaction` (lines 149-203).  When
already inside a transaction the operation runs directly and its outcome is
returned as-is.  Otherwise: begin; if the begin-check reports no active
transaction, a `TransactionError` is thrown and the outer catch wraps it into
a `DatabaseError`; if the operation fails, the engine rolls back and the outer
catch wraps the error into a `DatabaseError` whose message interpolates the
original message; if the commit fails with "no transaction is active" the
failure is only logged and the run still succeeds; any other commit failure is
wrapped into a `DatabaseError` as well.  The operation is a state transformer
returning the writes it managed to issue alongside its outcome. -/
def sqliteTransaction {σ α : Type} (conn : TxConn σ) (beginActive : Bool)
    (commit : CommitOutcome) (op : σ → σ × Except Err α) :
    TxConn σ × Except Err α :=
  match conn.snapshot with
  | some _ =>
    let r := op conn.cur
    ({ conn with cur := r.1 }, r.2)
  | none =>
    if !beginActive then
      ({ cur := conn.cur, snapshot := none },
       .error (.database "Transaction failed: Failed to begin transaction"))
    else
      let r := op conn.cur
      match r.2 with
      | .error e =>
        ({ cur := conn.cur, snapshot := none },
         .error (.database ("Transaction failed: " ++ errMessage e)))
      | .ok a =>
        match commit with
        | none => ({ cur := r.1, snapshot := none }, .ok a)
        | some msg =>
          if strIncludes msg "no transaction is active" then
            ({ cur := r.1, snapshot := none }, .ok a)
          else
            ({ cur := r.1, snapshot := none },
             .error (.database ("Transaction failed: " ++ msg)))

/-- Whether an error value is a `TransactionError`. -/
def isTransactionError : Err → Bool
  | .txError _ => true
  | _ => false

/-- Whether an error value is a `DatabaseError`. -/
def isDatabaseError : Err → Bool
  | .database _ => true
  | _ => false

/-- States reachable from the empty store by any sequence of `addNode` and
`updateNode` calls (each with its own transaction, arbitrary payloads —
including explicitly supplied `is_independent` — and arbitrary generated ids
and timestamps). -/
inductive Reachable : Store → Prop where
  | empty : Reachable emptyStore
  | add (node : NodeInput) (freshId now : String) {s : Store} :
      Reachable s → Reachable (addNodeApply node freshId now s)
  | update (id : String) (u : NodeUpdates) (now : String) {s : Store} :
      Reachable s → Reachable (updateNodeApply id u now s)

/-- States reachable from the empty store when `updateNode` is never called
with an explicitly supplied `is_independent` (`addNode` remains
unrestricted). -/
inductive ReachableSafe : Store → Prop where
  | empty : ReachableSafe emptyStore
  | add (node : NodeInput) (freshId now : String) {s : Store} :
      ReachableSafe s → ReachableSafe (addNodeApply node freshId now s)
  | update (id : String) (u : NodeUpdates) (now : String) {s : Store} :
      u.is_independent = none →
      ReachableSafe s → ReachableSafe (updateNodeApply id u now s)

/-- The label-uniqueness invariant: at most one node of any given label is
independent. -/
def labelUnique (s : Store) : Prop :=
  ∀ L : String,
    (s.nodes.filter (fun n => n.label == L && n.is_independent)).length ≤ 1

/-- Well-formedness of a store with respect to the structured-relationship
encoding (the invariants of spec §3 plus basic key discipline): distinct,
non-empty node and edge ids, keys disjoint between the two tables, edge
endpoints referencing existing nodes, every RELATIONSHIP_TYPE node touched by
exactly one incoming and one outgoing relay edge and nothing else, relay
endpoints on the far side being existing non-RELATIONSHIP_TYPE nodes distinct
from the relationship node, no orphaned relay edges, and no relationship node
labelled with the relay type marker itself. -/
def WF (s : Store) : Prop :=
  ((s.nodes.map (fun n => n.id)).Nodup) ∧
  ((s.rels.map (fun e => e.id)).Nodup) ∧
  (∀ n ∈ s.nodes, ∀ e ∈ s.rels, n.id ≠ e.id) ∧
  (∀ n ∈ s.nodes, n.id ≠ "") ∧
  (∀ e ∈ s.rels, e.id ≠ "") ∧
  (∀ e ∈ s.rels,
    (∀ x ∈ e.source_id.toList, ∃ n ∈ s.nodes, n.id = x) ∧
    (∀ x ∈ e.target_id.toList, ∃ n ∈ s.nodes, n.id = x)) ∧
  (∀ n ∈ s.nodes, n.type = RELATIONSHIP_TYPE →
    (∀ e ∈ s.rels,
      (e.source_id = some n.id ∨ e.target_id = some n.id) → e.type = RELAY) ∧
    (s.rels.filter (fun e => e.target_id == some n.id && e.type == RELAY)).length = 1 ∧
    (s.rels.filter (fun e => e.source_id == some n.id && e.type == RELAY)).length = 1 ∧
    (∀ e ∈ s.rels, e.type = RELAY →
      (e.target_id = some n.id →
        ∃ m ∈ s.nodes, some m.id = e.source_id ∧ m.type ≠ RELATIONSHIP_TYPE) ∧
      (e.source_id = some n.id →
        ∃ m ∈ s.nodes, some m.id = e.target_id ∧ m.type ≠ RELATIONSHIP_TYPE)) ∧
    n.label ≠ RELAY) ∧
  (∀ e ∈ s.rels, e.type = RELAY →
    ∃ n ∈ s.nodes, n.type = RELATIONSHIP_TYPE ∧
      (e.source_id = some n.id ∨ e.target_id = some n.id))

instance (s : Store) : Decidable (WF s) := by
  unfold WF; infer_instance

/-- Per-node view of the data the round-trip claim compares: id, type, label
and properties (in order). -/
def nodeView (s : Store) : List (String × String × String × List (String × Val)) :=
  (getNodes s).map (fun v => (v.id, v.type, v.label, v.properties))

/-- Per-logical-edge view of the data the round-trip claim compares: id,
endpoints, type and properties (in order). -/
def edgeView (s : Store) :
    List (String × Option String × Option String × String × List (String × Val)) :=
  (getEdges s).map (fun e => (e.id, e.source_id, e.target_id, e.type, e.properties))

/-! ### Concrete stores used by scenario evaluations and witnesses -/

/-- The store after `addNode({id:"A", label:"X"})` then `addNode({id:"B", label:"X"})`
(the first two steps of the spec's independence scenario). -/
def indepScenarioStep2 : Store :=
  addNodeApply ⟨some "B", "node", "X", none, none⟩ "f2" "t2"
    (addNodeApply ⟨some "A", "node", "X", none, none⟩ "f1" "t1" emptyStore)

/-- The scenario store after relabeling node A to "Y" via `updateNode`. -/
def indepScenarioStep3 : Store :=
  updateNodeApply "A" { label := some "Y" } "t3" indepScenarioStep2

/-- Three nodes A, B, C with edges A→B and B→C (the path-finding scenario). -/
def pathScenarioStore : Store :=
  { nodes := [⟨"A", "node", "A", true, "t", "t"⟩,
              ⟨"B", "node", "B", true, "t", "t"⟩,
              ⟨"C", "node", "C", true, "t", "t"⟩]
    nodeProps := []
    rels := [⟨"e1", some "A", some "B", "knows", "t"⟩,
             ⟨"e2", some "B", some "C", "knows", "t"⟩]
    relProps := [] }

/-- A store holding one structured relationship A —"owns"→ B whose
RELATIONSHIP_TYPE node `R` carries the stored property `k ↦ v`, plus a plain
edge `p1` with one property. -/
def structScenarioStore : Store :=
  { nodes := [⟨"A", "person", "Alice", true, "t", "t"⟩,
              ⟨"B", "person", "Bob", true, "t", "t"⟩,
              ⟨"R", RELATIONSHIP_TYPE, "owns", true, "t", "t"⟩]
    nodeProps := [⟨"R", "k", "v"⟩, ⟨"A", "age", "30"⟩]
    rels := [⟨"r1", some "A", some "R", RELAY, "t"⟩,
             ⟨"r2", some "R", some "B", RELAY, "t"⟩,
             ⟨"p1", some "A", some "B", "likes", "t"⟩]
    relProps := [⟨"p1", "w", "5"⟩] }

/-- A second copy of the structured-relationship store (distinct witnesses may
not be shared between claims, so each claim evaluates its own store). -/
def structScenarioStore2 : Store := structScenarioStore

/-- A third copy (see `structScenarioStore2`). -/
def structScenarioStore3 : Store := structScenarioStore

/-- A fourth copy (see `structScenarioStore2`). -/
def structScenarioStore4 : Store := structScenarioStore

/-- A malformed store: RELATIONSHIP_TYPE node `R` with a single relay edge. -/
def malformedRelStore : Store :=
  { nodes := [⟨"A", "person", "Alice", true, "t", "t"⟩,
              ⟨"R", RELATIONSHIP_TYPE, "owns", true, "t", "t"⟩]
    nodeProps := []
    rels := [⟨"r1", some "A", some "R", RELAY, "t"⟩]
    relProps := [] }

/-- Store containing the single node X (for the import counterexample). -/
def importC8Store : Store :=
  { nodes := [⟨"X", "node", "X", true, "t", "t"⟩]
    nodeProps := [], rels := [], relProps := [] }

/-- Import payload with no nodes and one edge X→X referencing the node X that
already exists in `importC8Store`. -/
def importC8Data : ImportData :=
  { nodes := [], edges := [⟨some "e", some "X", some "X", "t1", none⟩] }

/-! ### Theorems -/

/-- C1 (failing-input evaluation): running the spec's scenario through the
code — `addNode` A with label "X", `addNode` B with label "X", then relabel A
to "Y" via `updateNode` — leaves BOTH A and B non-independent after the second
insertion (the claim says A stays independent), and leaves B non-independent
after the relabeling (the claim says B becomes independent again). -/
theorem addNode_updateNode_independence_scenario :
    (indepScenarioStep2.nodes.map (fun n => (n.id, n.label, n.is_independent)) =
      [("A", "X", false), ("B", "X", false)]) ∧
    (indepScenarioStep3.nodes.map (fun n => (n.id, n.label, n.is_independent)) =
      [("A", "Y", true), ("B", "X", false)]) := by decide

/-- C3 (failing-input evaluation): over edges A→B and B→C,
`findPath(A, C, maxDepth = 2)` returns the empty list — not the two-edge path
the claim requires — although the same call with `maxDepth = 3` does return
`[e1, e2]`, showing the path is found one level later than the claim states. -/
theorem findPath_maxDepth_scenario :
    (findPath pathScenarioStore "A" "C" 2 = .ok []) ∧
    ((findPath pathScenarioStore "A" "C" 3).map (fun l => l.map (fun e => e.id)) =
      .ok ["e1", "e2"]) ∧
    (findPath pathScenarioStore "A" "B" 1 = .ok []) := by
  refine ⟨rfl, rfl, rfl⟩

/-- C4 (failing-input evaluation): `getEdge` on the RELATIONSHIP_TYPE node `R`
synthesizes the structured edge with the correct id, endpoints, type and
`isStructured` flag, but its `properties` field is the empty map even though
`R`'s stored property map is `{k ↦ v}` — the code reads `relNode.properties`
off the raw SQL row, which has no such column. -/
theorem getEdge_structured_properties_scenario :
    ((getEdgeOp structScenarioStore "R").map (fun e =>
        (e.id, e.source_id, e.target_id, e.type, e.isStructured, e.properties)) =
      .ok ("R", some "A", some "B", "owns", true, [])) ∧
    (readProps structScenarioStore.nodeProps "R" = [("k", "v")]) := by
  refine ⟨rfl, rfl⟩

/-- C10: `getEdge` on an id naming a RELATIONSHIP_TYPE node with a number of
attached relay edges different from two reports `EdgeNotFoundError` — the
malformed structured relationship is surfaced as an absent edge, not as a
partial edge and not as a `ValidationError`. -/
theorem getEdge_malformed_structured_not_found (s : Store) (id : String)
    (hnode : ∃ n ∈ s.nodes, n.id = id ∧ n.type = RELATIONSHIP_TYPE)
    (hlen : (relaysTouching s id).length ≠ 2) :
    getEdgeOp s id = .error (.edgeNotFound id) := by
  have hfind : (s.nodes.find? (fun n => n.id == id && n.type == RELATIONSHIP_TYPE)).isSome := by
    rw [List.find?_isSome]
    obtain ⟨n, hn, h1, h2⟩ := hnode
    exact ⟨n, hn, by simp [h1, h2]⟩
  obtain ⟨n, hn⟩ := Option.isSome_iff_exists.mp hfind
  unfold getEdgeOp
  rw [hn]
  cases hrel : relaysTouching s id with
  | nil => rfl
  | cons a t =>
    cases t with
    | nil => rfl
    | cons b t2 =>
      cases t2 with
      | nil => exact absurd (by rw [hrel]; rfl) hlen
      | cons c t3 => rfl

/-- Witness for C10 at a concrete malformed store (one relay edge only). -/
theorem getEdge_malformed_structured_not_found_witness :
    getEdgeOp malformedRelStore "R" = .error (.edgeNotFound "R") :=
  getEdge_malformed_structured_not_found malformedRelStore "R"
    ⟨⟨"R", RELATIONSHIP_TYPE, "owns", true, "t", "t"⟩, by decide, by decide⟩
    (by decide)

/-- C6 (counterexample): a transaction whose operation throws is rejected with
a `DatabaseError` ("Transaction failed: …"), not with a `TransactionError` as
the claim states; the state is rolled back. -/
theorem transaction_wrap_counterexample :
    (sqliteTransaction (⟨0, none⟩ : TxConn Nat) true none
        (fun n => (n + 1, (.error (.generic "boom") : Except Err Nat))) =
      (⟨0, none⟩, .error (.database "Transaction failed: boom"))) ∧
    isTransactionError (.database "Transaction failed: boom") = false ∧
    isDatabaseError (.database "Transaction failed: boom") = true := by
  refine ⟨rfl, rfl, rfl⟩

/-- C6 (amended): for every operation run through the platform transaction
wrapper that starts a new transaction, if the operation throws then the
transaction is rolled back and the call rejects with the error wrapped as a
`DatabaseError` whose message interpolates the original error's message; and a
commit that fails because the transaction was already implicitly ended by the
engine ("no transaction is active") is benign — the call still succeeds. -/
theorem transaction_wrap_amended {σ α : Type} (s0 : σ)
    (op : σ → σ × Except Err α) (commit : CommitOutcome) (e : Err) (a : α)
    (msg : String) :
    ((op s0).2 = .error e →
      sqliteTransaction ⟨s0, none⟩ true commit op =
        (⟨s0, none⟩, .error (.database ("Transaction failed: " ++ errMessage e))) ∧
      isTransactionError (.database ("Transaction failed: " ++ errMessage e)) = false) ∧
    ((op s0).2 = .ok a → strIncludes msg "no transaction is active" = true →
      sqliteTransaction ⟨s0, none⟩ true (some msg) op =
        (⟨(op s0).1, none⟩, .ok a)) := by
  constructor
  · intro he
    exact ⟨by simp [sqliteTransaction, he], rfl⟩
  · intro ha hmsg
    simp [sqliteTransaction, ha, hmsg]

/-- Witness for C6 (amended) at concrete operations over `Nat` state. -/
theorem transaction_wrap_amended_witness :
    (sqliteTransaction (⟨0, none⟩ : TxConn Nat) true none
        (fun n => (n + 1, (.error (.generic "fail") : Except Err Nat))) =
      (⟨0, none⟩, .error (.database "Transaction failed: fail"))) ∧
    (sqliteTransaction (⟨0, none⟩ : TxConn Nat) true
        (some "cannot commit - no transaction is active")
        (fun n => (n + 1, (.ok 7 : Except Err Nat))) =
      (⟨1, none⟩, .ok 7)) :=
  ⟨((transaction_wrap_amended 0
      (fun n => (n + 1, (.error (.generic "fail") : Except Err Nat)))
      none (.generic "fail") 0 "").1 rfl).1,
   (transaction_wrap_amended 0
      (fun n => (n + 1, (.ok 7 : Except Err Nat)))
      (some "cannot commit - no transaction is active") (.generic "") 7
      "cannot commit - no transaction is active").2 rfl (by decide)⟩

/-! ### Per-item independence of the edge-import phase (claim C8) -/

theorem importEdgesPhase_errs_acc (mode : ImportMode) (now : String)
    (fresh : Nat → String) (ids : List String) :
    ∀ (items : List ImpEdge) (st : Store) (eids errs : List String) (k : Nat),
    importEdgesPhase mode now fresh ids items (st, eids, errs, k) =
      ((importEdgesPhase mode now fresh ids items (st, eids, [], k)).1,
       (importEdgesPhase mode now fresh ids items (st, eids, [], k)).2.1,
       errs ++ (importEdgesPhase mode now fresh ids items (st, eids, [], k)).2.2.1,
       (importEdgesPhase mode now fresh ids items (st, eids, [], k)).2.2.2) := by
  intro items
  induction items with
  | nil => intro st eids errs k; simp [importEdgesPhase]
  | cons e t ih =>
    intro st eids errs k
    simp only [importEdgesPhase, List.foldl_cons] at *
    simp only [importEdgeStep]
    rcases hc : importEdgeStepCore mode now fresh ids st eids k e with ⟨c1, c2, cd, c4⟩
    simp only [List.nil_append]
    rw [ih c1 c2 (errs ++ cd) c4, ih c1 c2 cd c4]
    simp [List.append_assoc]

theorem importEdgesPhase_skip_mem (mode : ImportMode) (now : String)
    (fresh : Nat → String) (ids : List String) :
    ∀ (items : List ImpEdge) (st : Store) (eids errs : List String) (k : Nat)
      (e : ImpEdge), e ∈ items → edgeEndpointsOk ids e = false →
    edgeSkipMsg ids e ∈
      (importEdgesPhase mode now fresh ids items (st, eids, errs, k)).2.2.1 := by
  intro items
  induction items with
  | nil => intro _ _ _ _ _ h; exact absurd h (List.not_mem_nil _)
  | cons a t ih =>
    intro st eids errs k e he hbad
    simp only [importEdgesPhase, List.foldl_cons] at *
    rcases List.mem_cons.mp he with rfl | htail
    · have hstep : importEdgeStep mode now fresh ids (st, eids, errs, k) e =
          (st, eids, errs ++ [edgeSkipMsg ids e], k) := by
        unfold importEdgeStep importEdgeStepCore
        rw [hbad]
        simp
      rw [hstep]
      show edgeSkipMsg ids e ∈ (importEdgesPhase mode now fresh ids t
        (st, eids, errs ++ [edgeSkipMsg ids e], k)).2.2.1
      rw [importEdgesPhase_errs_acc mode now fresh ids t st eids
        (errs ++ [edgeSkipMsg ids e]) k]
      simp
    · rcases hs : importEdgeStep mode now fresh ids (st, eids, errs, k) a with
        ⟨st1, eids1, errs1, k1⟩
      exact ih st1 eids1 errs1 k1 e htail hbad

theorem importEdgesPhase_skip_filter (mode : ImportMode) (now : String)
    (fresh : Nat → String) (ids : List String) :
    ∀ (items : List ImpEdge) (st : Store) (eids errs : List String) (k : Nat),
    ((importEdgesPhase mode now fresh ids items (st, eids, errs, k)).1 =
      (importEdgesPhase mode now fresh ids
        (items.filter (edgeEndpointsOk ids)) (st, eids, errs, k)).1) ∧
    ((importEdgesPhase mode now fresh ids items (st, eids, errs, k)).2.1 =
      (importEdgesPhase mode now fresh ids
        (items.filter (edgeEndpointsOk ids)) (st, eids, errs, k)).2.1) ∧
    ((importEdgesPhase mode now fresh ids items (st, eids, errs, k)).2.2.2 =
      (importEdgesPhase mode now fresh ids
        (items.filter (edgeEndpointsOk ids)) (st, eids, errs, k)).2.2.2) := by
  intro items
  induction items with
  | nil => intro st eids errs k; exact ⟨rfl, rfl, rfl⟩
  | cons a t ih =>
    intro st eids errs k
    by_cases h : edgeEndpointsOk ids a = true
    · have hfilter : (a :: t).filter (edgeEndpointsOk ids) =
          a :: t.filter (edgeEndpointsOk ids) := by
        simp [List.filter_cons, h]
      rw [hfilter]
      simp only [importEdgesPhase, List.foldl_cons]
      rcases hs : importEdgeStep mode now fresh ids (st, eids, errs, k) a with
        ⟨st1, eids1, errs1, k1⟩
      exact ih st1 eids1 errs1 k1
    · have hbad : edgeEndpointsOk ids a = false := by
        cases hh : edgeEndpointsOk ids a
        · rfl
        · exact absurd hh h
      have hfilter : (a :: t).filter (edgeEndpointsOk ids) =
          t.filter (edgeEndpointsOk ids) := by
        simp [List.filter_cons, hbad]
      have hstep : importEdgeStep mode now fresh ids (st, eids, errs, k) a =
          (st, eids, errs ++ [edgeSkipMsg ids a], k) := by
        unfold importEdgeStep importEdgeStepCore
        rw [hbad]
        simp
      rw [hfilter]
      simp only [importEdgesPhase, List.foldl_cons]
      rw [hstep]
      have h1 := ih st eids (errs ++ [edgeSkipMsg ids a]) k
      have ha := importEdgesPhase_errs_acc mode now fresh ids
        (t.filter (edgeEndpointsOk ids)) st eids (errs ++ [edgeSkipMsg ids a]) k
      have hb := importEdgesPhase_errs_acc mode now fresh ids
        (t.filter (edgeEndpointsOk ids)) st eids errs k
      simp only [importEdgesPhase] at h1 ha hb
      refine ⟨?_, ?_, ?_⟩
      · rw [h1.1, ha, hb]
      · rw [h1.2.1, ha, hb]
      · rw [h1.2.2, ha, hb]

/-- C8 (counterexample): `importFromJson` in MERGE mode on a store that
already holds node X, given a payload with no nodes and one edge X→X: although
both endpoints name a node existing in the store, the edge is skipped with a
per-item error and is not imported — the endpoint check consults only the
node ids imported by this call. -/
theorem importFromJson_existing_node_edge_skipped :
    (importC8Store.nodes.any (fun n => n.id == "X") = true) ∧
    ((importFromJson importC8Data .MERGE "t2" (fun _ => "u") importC8Store).1.rels
      = []) ∧
    ((importFromJson importC8Data .MERGE "t2" (fun _ => "u") importC8Store).2.success
      = false) ∧
    ((importFromJson importC8Data .MERGE "t2" (fun _ => "u") importC8Store).2.errors
      = ["Failed to import edge e: Source node X does not exist"]) := by
  refine ⟨rfl, rfl, rfl, rfl⟩

/-- C8 (amended): during `importFromJson`, every edge whose `source_id` or
`target_id` names a node that is not among the nodes imported by this call
(nodes merely pre-existing in the store are not consulted) is skipped and
recorded as a per-item error, while the remaining nodes and edges are imported
exactly as they would be without the skipped edges; the returned result has
`success = false` whenever any item failed (success holds exactly when the
error list is empty). -/
theorem importFromJson_skips_unknown_endpoint_edges (d : ImportData)
    (mode : ImportMode) (now : String) (fresh : Nat → String) (s : Store) :
    let np := importNodesPhase mode now fresh d.nodes
      (if mode = .REPLACE then emptyStore else s)
    let ids := np.2.1
    let full := importFromJson d mode now fresh s
    let filtered := importFromJson
      { nodes := d.nodes, edges := d.edges.filter (edgeEndpointsOk ids) }
      mode now fresh s
    (full.1 = filtered.1) ∧
    (full.2.edgesImported = filtered.2.edgesImported) ∧
    (∀ e ∈ d.edges, edgeEndpointsOk ids e = false →
      edgeSkipMsg ids e ∈ full.2.errors) ∧
    (full.2.success = full.2.errors.isEmpty) := by
  intro np ids full filtered
  have hfilter := importEdgesPhase_skip_filter mode now fresh ids d.edges
    np.1 [] np.2.2.1 np.2.2.2
  refine ⟨?_, ?_, ?_, rfl⟩
  · exact hfilter.1
  · show (importEdgesPhase mode now fresh ids d.edges
        (np.1, [], np.2.2.1, np.2.2.2)).2.1.length = _
    rw [hfilter.2.1]
    rfl
  · intro e he hbad
    exact importEdgesPhase_skip_mem mode now fresh ids d.edges
      np.1 [] np.2.2.1 np.2.2.2 e he hbad

/-- Witness for C8 (amended): a concrete MERGE import in which one edge
references an id never imported; the skipped edge's message is recorded, the
rest imports as if the bad edge were absent, and success is false. -/
theorem importFromJson_skips_unknown_endpoint_edges_witness :
    edgeSkipMsg ["N1"] ⟨some "eBad", some "N1", some "ZZ", "t", none⟩ ∈
      (importFromJson
        { nodes := [⟨some "N1", "node", "L1", none⟩],
          edges := [⟨some "eBad", some "N1", some "ZZ", "t", none⟩] }
        .MERGE "t0" (fun _ => "u") emptyStore).2.errors := by
  have h := importFromJson_skips_unknown_endpoint_edges
    { nodes := [⟨some "N1", "node", "L1", none⟩],
      edges := [⟨some "eBad", some "N1", some "ZZ", "t", none⟩] }
    .MERGE "t0" (fun _ => "u") emptyStore
  exact h.2.2.1 ⟨some "eBad", some "N1", some "ZZ", "t", none⟩ (by decide) (by decide)

/-! ### Label-uniqueness invariant (claim C2) -/

/-- The row predicate underlying `labelUnique`. -/
def indepPred (L : String) : NodeRow → Bool :=
  fun n => n.label == L && n.is_independent

theorem labelUnique_iff_countP (s : Store) :
    labelUnique s ↔ ∀ L, s.nodes.countP (indepPred L) ≤ 1 := by
  unfold labelUnique indepPred
  constructor
  · intro h L
    rw [List.countP_eq_length_filter]
    exact h L
  · intro h L
    rw [← List.countP_eq_length_filter]
    exact h L

theorem demoteLabel_map_id (label id now : String) (l : List NodeRow) :
    (demoteLabel label id now l).map (fun n => n.id) = l.map (fun n => n.id) := by
  unfold demoteLabel
  rw [List.map_map]
  apply List.map_congr_left
  intro n _
  simp only [Function.comp]
  split <;> rfl

theorem demoteLabel_countP_le (label id now : String) (l : List NodeRow)
    (L : String) :
    (demoteLabel label id now l).countP (indepPred L) ≤ l.countP (indepPred L) := by
  unfold demoteLabel
  rw [List.countP_map]
  apply List.countP_mono_left
  intro n _ hp
  by_cases h : (n.label == label && n.id != id) = true
  · simp only [Function.comp, h, if_pos] at hp
    simp [indepPred] at hp
  · simp only [Function.comp, h, if_neg] at hp
    simpa using hp

theorem demoteLabel_countP_eq_zero (label id now : String) (l : List NodeRow)
    (h : ∀ n ∈ l, ¬ n.id = id) :
    (demoteLabel label id now l).countP (indepPred label) = 0 := by
  unfold demoteLabel
  rw [List.countP_map]
  apply List.countP_eq_zero.mpr
  intro n hn
  by_cases hl : (n.label == label) = true
  · have : (n.label == label && n.id != id) = true := by
      simp [hl, h n hn]
    simp [Function.comp, this, indepPred]
  · have : (n.label == label && n.id != id) = false := by
      simp [hl]
    simp [Function.comp, this, indepPred, hl]

theorem countP_id_le_one (l : List NodeRow)
    (h : (l.map (fun n => n.id)).Nodup) (x : String) :
    l.countP (fun n => n.id == x) ≤ 1 := by
  induction l with
  | nil => simp
  | cons a t ih =>
    rw [List.map_cons, List.nodup_cons] at h
    rw [List.countP_cons]
    by_cases ha : (a.id == x) = true
    · have hx : a.id = x := by simpa using ha
      have hzero : t.countP (fun n => n.id == x) = 0 := by
        apply List.countP_eq_zero.mpr
        intro b hb
        intro hbx
        apply h.1
        rw [hx, ← show b.id = x from by simpa using hbx]
        exact List.mem_map_of_mem (fun n => n.id) hb
      rw [hzero]
      simp [ha]
    · have : (a.id == x) = false := by
        cases hh : (a.id == x)
        · rfl
        · exact absurd hh ha
      rw [this]
      simpa using ih h.2

theorem applyNodeSets_map_id (id : String) (u : NodeUpdates)
    (indep : Option Bool) (now : String) (l : List NodeRow) :
    (applyNodeSets id u indep now l).map (fun n => n.id) =
      l.map (fun n => n.id) := by
  unfold applyNodeSets
  rw [List.map_map]
  apply List.map_congr_left
  intro n _
  simp only [Function.comp]
  split <;> rfl

/-- Auxiliary invariant carried through the induction: distinct node ids plus
the label-uniqueness property. -/
def nodesInv (s : Store) : Prop :=
  (s.nodes.map (fun n => n.id)).Nodup ∧ labelUnique s

theorem countP_congr_mem {α : Type} (l : List α) (p q : α → Bool)
    (h : ∀ a ∈ l, p a = q a) : l.countP p = l.countP q := by
  induction l with
  | nil => rfl
  | cons a t ih =>
    rw [List.countP_cons, List.countP_cons, h a (List.mem_cons_self a t),
      ih (fun b hb => h b (List.mem_cons_of_mem a hb))]

theorem countP_singleton_le {α : Type} (p : α → Bool) (x : α) :
    List.countP p [x] ≤ 1 := by
  simp only [List.countP_cons, List.countP_nil]
  split <;> simp

theorem not_any_of_eq_false {α : Type} {l : List α} {p : α → Bool}
    (h : ¬ l.any p = true) : ∀ a ∈ l, ¬ p a = true := by
  intro a ha hp
  exact h (List.any_eq_true.mpr ⟨a, ha, hp⟩)

theorem nodesInv_mk (ns : List NodeRow) (np : List PropRow) (rs : List EdgeRow)
    (rp : List PropRow) :
    nodesInv ⟨ns, np, rs, rp⟩ ↔
      ((ns.map (fun n => n.id)).Nodup ∧ ∀ L, ns.countP (indepPred L) ≤ 1) := by
  unfold nodesInv
  rw [labelUnique_iff_countP]

/-- Equation lemma for `addNodeApply`: the structure of the resulting store. -/
theorem addNodeApply_eq (node : NodeInput) (freshId now : String) (s : Store) :
    addNodeApply node freshId now s =
      (let id := resolveId node.id freshId
       let labelExists := s.nodes.any (fun n => n.label == node.label)
       let base := if labelExists then demoteLabel node.label id now s.nodes
         else s.nodes
       if base.any (fun n => n.id == id) then s
       else
         { nodes := base ++ [NodeRow.mk id node.type node.label
             (match node.is_independent with
              | some b => b
              | none => !labelExists) now now]
           nodeProps := s.nodeProps ++
             ((node.properties.getD []).map (fun kv =>
               PropRow.mk (resolveId node.id freshId) kv.1 kv.2))
           rels := s.rels
           relProps := s.relProps }) := by
  unfold addNodeApply addNodeOp
  simp only []
  by_cases hex : (s.nodes.any (fun n => n.label == node.label)) = true
  · rw [if_pos hex, if_pos hex]
    by_cases hdup : ((demoteLabel node.label (resolveId node.id freshId) now s.nodes).any
        (fun n => n.id == resolveId node.id freshId)) = true
    · rw [if_pos hdup, if_pos hdup]
    · rw [if_neg hdup, if_neg hdup]
  · rw [if_neg hex, if_neg hex]
    by_cases hdup : (s.nodes.any (fun n => n.id == resolveId node.id freshId)) = true
    · rw [if_pos hdup, if_pos hdup]
    · rw [if_neg hdup, if_neg hdup]

theorem applyNodeSets_countP_none (id : String) (u : NodeUpdates) (now : String)
    (l : List NodeRow) (L : String) (hl : u.label = none) :
    (applyNodeSets id u none now l).countP (indepPred L) =
      l.countP (indepPred L) := by
  unfold applyNodeSets
  rw [List.countP_map]
  apply countP_congr_mem
  intro n _
  simp only [Function.comp]
  by_cases h : (n.id == id) = true
  · rw [if_pos h]
    simp [indepPred, hl]
  · rw [if_neg h]

theorem applyNodeSets_countP_le_false (id : String) (u : NodeUpdates)
    (now : String) (l : List NodeRow) (L : String) :
    (applyNodeSets id u (some false) now l).countP (indepPred L) ≤
      l.countP (indepPred L) := by
  unfold applyNodeSets
  rw [List.countP_map]
  apply List.countP_mono_left
  intro n _ hp
  simp only [Function.comp] at hp
  by_cases h : (n.id == id) = true
  · rw [if_pos h] at hp
    simp [indepPred] at hp
  · rw [if_neg h] at hp
    exact hp

theorem nodesInv_addNodeApply (node : NodeInput) (freshId now : String)
    (s : Store) (h : nodesInv s) : nodesInv (addNodeApply node freshId now s) := by
  obtain ⟨hnodup, huniq⟩ := h
  rw [labelUnique_iff_countP] at huniq
  rw [addNodeApply_eq]
  simp only []
  by_cases hex : (s.nodes.any (fun n => n.label == node.label)) = true
  · rw [if_pos hex]
    by_cases hdup : ((demoteLabel node.label (resolveId node.id freshId) now s.nodes).any
        (fun n => n.id == resolveId node.id freshId)) = true
    · rw [if_pos hdup]
      exact ⟨hnodup, (labelUnique_iff_countP s).mpr huniq⟩
    · rw [if_neg hdup]
      have hnm : ∀ n ∈ s.nodes, ¬ n.id = resolveId node.id freshId := by
        intro n hn hcontra
        apply hdup
        rw [List.any_eq_true]
        unfold demoteLabel
        refine ⟨_, List.mem_map_of_mem _ hn, ?_⟩
        split <;> simpa using hcontra
      rw [nodesInv_mk]
      refine ⟨?_, ?_⟩
      · rw [List.map_append, demoteLabel_map_id]
        simp only [List.map_cons, List.map_nil]
        rw [List.nodup_append]
        refine ⟨hnodup, List.nodup_singleton _, ?_⟩
        intro a ha hb
        simp only [List.mem_singleton] at hb
        subst hb
        obtain ⟨n, hn, hid⟩ := List.mem_map.mp ha
        exact hnm n hn hid
      · intro L
        rw [List.countP_append]
        by_cases hL : (node.label == L) = true
        · have hLe : node.label = L := by simpa using hL
          rw [← hLe]
          rw [demoteLabel_countP_eq_zero node.label (resolveId node.id freshId)
            now s.nodes hnm]
          simpa using countP_singleton_le (indepPred node.label) _
        · have hone : List.countP (indepPred L)
              [NodeRow.mk (resolveId node.id freshId) node.type node.label
                (match node.is_independent with
                 | some b => b
                 | none => !s.nodes.any (fun n => n.label == node.label)) now now] = 0 := by
            simp [indepPred, List.countP_cons, hL]
          rw [hone, Nat.add_zero]
          exact le_trans (demoteLabel_countP_le node.label
            (resolveId node.id freshId) now s.nodes L) (huniq L)
  · rw [if_neg hex]
    by_cases hdup : (s.nodes.any (fun n => n.id == resolveId node.id freshId)) = true
    · rw [if_pos hdup]
      exact ⟨hnodup, (labelUnique_iff_countP s).mpr huniq⟩
    · rw [if_neg hdup]
      have hnm : ∀ n ∈ s.nodes, ¬ n.id = resolveId node.id freshId := by
        intro n hn hcontra
        exact not_any_of_eq_false hdup n hn (by simpa using hcontra)
      rw [nodesInv_mk]
      refine ⟨?_, ?_⟩
      · rw [List.map_append]
        simp only [List.map_cons, List.map_nil]
        rw [List.nodup_append]
        refine ⟨hnodup, List.nodup_singleton _, ?_⟩
        intro a ha hb
        simp only [List.mem_singleton] at hb
        subst hb
        obtain ⟨n, hn, hid⟩ := List.mem_map.mp ha
        exact hnm n hn hid
      · intro L
        rw [List.countP_append]
        by_cases hL : (node.label == L) = true
        · have hLe : node.label = L := by simpa using hL
          have hzero : s.nodes.countP (indepPred L) = 0 := by
            apply List.countP_eq_zero.mpr
            intro n hn
            have hnl := not_any_of_eq_false hex n hn
            simp only [indepPred, ← hLe]
            intro hc
            rw [Bool.and_eq_true] at hc
            exact hnl (by simpa using hc.1.symm)
          rw [hzero, Nat.zero_add]
          exact countP_singleton_le (indepPred L) _
        · have hone : List.countP (indepPred L)
              [NodeRow.mk (resolveId node.id freshId) node.type node.label
                (match node.is_independent with
                 | some b => b
                 | none => !s.nodes.any (fun n => n.label == node.label)) now now] = 0 := by
            simp [indepPred, List.countP_cons, hL]
          rw [hone, Nat.add_zero]
          exact huniq L

theorem applyNodeSets_demote_countP_le_one (id newLabel now : String)
    (u : NodeUpdates) (l : List NodeRow) (L : String)
    (hl : u.label = some newLabel)
    (hnodup : (l.map (fun n => n.id)).Nodup)
    (ho : ¬ l.any (fun n => n.label == newLabel && n.id != id) = true)
    (huniq : l.countP (indepPred L) ≤ 1) :
    (applyNodeSets id u (some true) now
        (demoteLabel newLabel id now l)).countP (indepPred L) ≤ 1 := by
  unfold applyNodeSets demoteLabel
  rw [List.map_map, List.countP_map]
  by_cases hNL : (newLabel == L) = true
  · refine le_trans (List.countP_mono_left (q := fun n => n.id == id) ?_)
      (countP_id_le_one l hnodup id)
    intro n hn hp
    simp only [Function.comp] at hp
    by_cases hid : (n.id == id) = true
    · exact hid
    exfalso
    by_cases hlb : (n.label == newLabel) = true
    · have hdm : (n.label == newLabel && n.id != id) = true := by
        simp only [Bool.and_eq_true, hlb, true_and, bne_iff_ne, ne_eq]
        intro hc
        exact hid (by simpa using hc)
      exact not_any_of_eq_false ho n hn hdm
    · have hdm : ¬ ((n.label == newLabel && n.id != id) = true) := by
        simp [hlb]
      rw [if_neg hdm, if_neg hid] at hp
      simp only [indepPred, Bool.and_eq_true] at hp
      have hNLe : newLabel = L := by simpa using hNL
      have : n.label = L := by simpa using hp.1
      exact hlb (by simp [this, hNLe])
  · refine le_trans (List.countP_mono_left (q := indepPred L) ?_) huniq
    intro n hn hp
    simp only [Function.comp] at hp
    by_cases hid : (n.id == id) = true
    · exfalso
      have hdm : ¬ ((n.label == newLabel && n.id != id) = true) := by
        intro hc
        rw [Bool.and_eq_true, bne_iff_ne] at hc
        exact hc.2 (by simpa using hid)
      rw [if_neg hdm, if_pos hid, hl] at hp
      simp only [indepPred, Option.getD_some, Bool.and_eq_true] at hp
      exact hNL (by simpa using hp.1)
    · by_cases hlb : (n.label == newLabel) = true
      · have hdm : (n.label == newLabel && n.id != id) = true := by
          simp only [Bool.and_eq_true, hlb, true_and, bne_iff_ne, ne_eq]
          intro hc
          exact hid (by simpa using hc)
        exact absurd hdm (not_any_of_eq_false ho n hn)
      · have hdm : ¬ ((n.label == newLabel && n.id != id) = true) := by
          simp [hlb]
        rw [if_neg hdm, if_neg hid] at hp
        exact hp

theorem nodesInv_updateNodeApply (id : String) (u : NodeUpdates) (now : String)
    (s : Store) (hu : u.is_independent = none) (h : nodesInv s) :
    nodesInv (updateNodeApply id u now s) := by
  obtain ⟨hnodup, huniq⟩ := h
  rw [labelUnique_iff_countP] at huniq
  unfold updateNodeApply updateNodeOp
  simp only [hu]
  by_cases hpres : (s.nodes.any (fun n => n.id == id)) = true
  · simp only [hpres, Bool.not_true, Bool.false_eq_true, if_false]
    rcases hl : u.label with _ | newLabel
    · cases hp : u.properties <;> by_cases ht : (u.type.isSome) = true <;>
        simp only [ht, Option.isSome_none, Bool.false_or, Bool.or_false,
          if_true, Bool.false_eq_true, if_false] <;>
        first
        | exact ⟨hnodup, (labelUnique_iff_countP s).mpr huniq⟩
        | (rw [nodesInv_mk]
           refine ⟨?_, ?_⟩
           · rw [applyNodeSets_map_id]
             exact hnodup
           · intro L
             rw [applyNodeSets_countP_none id u now s.nodes L hl]
             exact huniq L)
    · simp only [Option.isSome_some, Bool.true_or, if_true]
      by_cases ho : (s.nodes.any (fun n => n.label == newLabel && n.id != id)) = true
      · rw [if_pos ho]
        cases hp : u.properties <;>
          simp only [] <;>
          (rw [nodesInv_mk]
           refine ⟨?_, ?_⟩
           · rw [applyNodeSets_map_id]
             exact hnodup
           · intro L
             exact le_trans (applyNodeSets_countP_le_false id u now s.nodes L)
               (huniq L))
      · rw [if_neg ho]
        cases hp : u.properties <;>
          simp only [] <;>
          (rw [nodesInv_mk]
           refine ⟨?_, ?_⟩
           · rw [applyNodeSets_map_id, demoteLabel_map_id]
             exact hnodup
           · intro L
             exact applyNodeSets_demote_countP_le_one id newLabel now u s.nodes
               L hl hnodup ho (huniq L))
  · have hnb : (!(s.nodes.any (fun n => n.id == id))) = true := by
      cases hh : (s.nodes.any (fun n => n.id == id))
      · rfl
      · exact absurd hh hpres
    rw [hnb]
    simp only [if_true]
    exact ⟨hnodup, (labelUnique_iff_countP s).mpr huniq⟩

theorem nodesInv_of_reachableSafe (s : Store) (h : ReachableSafe s) :
    nodesInv s := by
  induction h with
  | empty =>
    refine ⟨List.nodup_nil, ?_⟩
    intro L
    simp [emptyStore]
  | add node freshId now _ ih => exact nodesInv_addNodeApply node freshId now _ ih
  | update id u now hu _ ih => exact nodesInv_updateNodeApply id u now _ hu ih

/-- The store produced by the sequence `addNode A (label "X")`,
`addNode B (label "Y")`, `updateNode B {label := "X", is_independent := true}` —
each call a legal use of the public API. -/
def labelClashStore : Store :=
  updateNodeApply "B" { label := some "X", is_independent := some true } "t3"
    (addNodeApply ⟨some "B", "node", "Y", none, none⟩ "f2" "t2"
      (addNodeApply ⟨some "A", "node", "X", none, none⟩ "f1" "t1" emptyStore))

/-- C2 (counterexample): a store reachable from the empty store by `addNode`
and `updateNode` calls — the last one explicitly supplying
`is_independent = true` — in which TWO nodes labelled "X" are independent:
the invariant claimed for all such sequences fails. -/
theorem labelUnique_reachable_counterexample :
    Reachable labelClashStore ∧ ¬ labelUnique labelClashStore := by
  constructor
  · exact Reachable.update "B" { label := some "X", is_independent := some true }
      "t3" (Reachable.add ⟨some "B", "node", "Y", none, none⟩ "f2" "t2"
        (Reachable.add ⟨some "A", "node", "X", none, none⟩ "f1" "t1"
          Reachable.empty))
  · intro h
    have := h "X"
    revert this
    decide

/-- C2 (amended): for every label L and every state reachable from the empty
store by any sequence of `addNode` calls (with or without an explicit
`is_independent`) and `updateNode` calls that do not explicitly supply
`is_independent`, at most one node with label L has `is_independent = true`. -/
theorem labelUnique_of_reachableSafe (s : Store) (h : ReachableSafe s) :
    labelUnique s :=
  (nodesInv_of_reachableSafe s h).2

/-- Witness for C2 (amended) at a concrete reachable store (A and B both
labelled "X", only the first independent). -/
theorem labelUnique_of_reachableSafe_witness :
    labelUnique (addNodeApply ⟨some "B", "node", "X", none, none⟩ "f2" "t2"
      (addNodeApply ⟨some "A", "node", "X", none, none⟩ "f1" "t1" emptyStore)) :=
  labelUnique_of_reachableSafe _
    (ReachableSafe.add ⟨some "B", "node", "X", none, none⟩ "f2" "t2"
      (ReachableSafe.add ⟨some "A", "node", "X", none, none⟩ "f1" "t1"
        ReachableSafe.empty))

/-! ### Structured-relationship deletion (claims C5 and C7) -/

theorem find?_key_unique {α : Type} (f : α → String) (l : List α)
    (hnd : (l.map f).Nodup) (x : α) (hx : x ∈ l) (k : String) (hk : f x = k) :
    l.find? (fun a => f a == k) = some x := by
  induction l with
  | nil => exact absurd hx (List.not_mem_nil x)
  | cons a t ih =>
    rw [List.map_cons, List.nodup_cons] at hnd
    rcases List.mem_cons.mp hx with rfl | hxt
    · exact List.find?_cons_of_pos t (by simpa using hk)
    · have hak : ¬ (f a == k) = true := by
        intro hc
        apply hnd.1
        rw [show f a = k from by simpa using hc, ← hk]
        exact List.mem_map_of_mem f hxt
      rw [List.find?_cons_of_neg t hak]
      exact ih hnd.2 hxt

/-- Characterization of `deleteRelNodeCase1` when the relationship node has
exactly one incoming and one outgoing relay edge: both relay edges and their
properties are removed, then the node and its properties. -/
theorem deleteRelNodeCase1_eq (s : Store) (id : String) (e1 e2 : EdgeRow)
    (hIn : s.rels.filter (fun e => e.target_id == some id && e.type == RELAY) = [e1])
    (hOut : s.rels.filter (fun e => e.source_id == some id && e.type == RELAY) = [e2])
    (hne : e1.id ≠ e2.id) :
    deleteRelNodeCase1 id s =
      { nodes := s.nodes.filter (fun n => n.id != id)
        nodeProps := s.nodeProps.filter (fun p => p.owner != id)
        rels := s.rels.filter (fun e => e.id != e1.id && e.id != e2.id)
        relProps := s.relProps.filter (fun p => p.owner != e1.id && p.owner != e2.id) } := by
  unfold deleteRelNodeCase1 deleteEdgeRows
  rw [hIn]
  simp only [List.head?_cons, Option.getD_some]
  have hOut1 : ((s.rels.filter (fun e => e.id != e1.id)).filter
      (fun e => e.source_id == some id && e.type == RELAY)) = [e2] := by
    rw [List.filter_comm, hOut]
    have : (e2.id != e1.id) = true := by
      simp only [bne_iff_ne, ne_eq]
      exact fun hc => hne hc.symm
    simp [List.filter_cons, this]
  rw [hOut1]
  simp only [List.head?_cons, Option.getD_some]
  congr 1
  · rw [List.filter_filter]
    apply List.filter_congr
    intro e _
    rw [Bool.and_comm]
  · rw [List.filter_filter]
    apply List.filter_congr
    intro p _
    rw [Bool.and_comm]

/-- C5: for every id resolving to a RELATIONSHIP_TYPE node with exactly one
incoming and one outgoing relay edge, `deleteEdge(id)` — and `deleteNode(id)`
under either delete mode — removes both relay edges with their properties and
then the relationship node with its properties, while the logical source and
target nodes S and T remain present and unchanged. -/
theorem deleteEdge_structured_cascade (s : Store) (id : String)
    (mode : DeleteMode) (R : NodeRow) (e1 e2 : EdgeRow) (S T : NodeRow)
    (hnd : (s.nodes.map (fun n => n.id)).Nodup)
    (hR : R ∈ s.nodes) (hRid : R.id = id) (hRty : R.type = RELATIONSHIP_TYPE)
    (hIn : s.rels.filter (fun e => e.target_id == some id && e.type == RELAY) = [e1])
    (hOut : s.rels.filter (fun e => e.source_id == some id && e.type == RELAY) = [e2])
    (hne : e1.id ≠ e2.id)
    (hS : S ∈ s.nodes) (hSid : e1.source_id = some S.id) (hSne : S.id ≠ id)
    (hT : T ∈ s.nodes) (hTid : e2.target_id = some T.id) (hTne : T.id ≠ id) :
    deleteEdgeTx id s = (deleteRelNodeCase1 id s, .ok ()) ∧
    deleteNodeTx id mode s = (deleteRelNodeCase1 id s, .ok ()) ∧
    (deleteRelNodeCase1 id s).rels =
      s.rels.filter (fun e => e.id != e1.id && e.id != e2.id) ∧
    (deleteRelNodeCase1 id s).relProps =
      s.relProps.filter (fun p => p.owner != e1.id && p.owner != e2.id) ∧
    (deleteRelNodeCase1 id s).nodes = s.nodes.filter (fun n => n.id != id) ∧
    (deleteRelNodeCase1 id s).nodeProps =
      s.nodeProps.filter (fun p => p.owner != id) ∧
    S ∈ (deleteRelNodeCase1 id s).nodes ∧ T ∈ (deleteRelNodeCase1 id s).nodes := by
  have hfind : s.nodes.find? (fun n => n.id == id) = some R :=
    find?_key_unique (fun n => n.id) s.nodes hnd R hR id hRid
  have hdel : ∀ m : DeleteMode, deleteNodeTx id m s =
      (deleteRelNodeCase1 id s, .ok ()) := by
    intro m
    unfold deleteNodeTx deleteNodeOp getNodeOp
    rw [hfind]
    simp only [hRty, if_pos]
  have hcase := deleteRelNodeCase1_eq s id e1 e2 hIn hOut hne
  have hSmem : S ∈ (deleteRelNodeCase1 id s).nodes := by
    rw [hcase]
    apply List.mem_filter.mpr
    exact ⟨hS, by simpa using hSne⟩
  have hTmem : T ∈ (deleteRelNodeCase1 id s).nodes := by
    rw [hcase]
    apply List.mem_filter.mpr
    exact ⟨hT, by simpa using hTne⟩
  refine ⟨?_, hdel mode, by rw [hcase], by rw [hcase], by rw [hcase],
    by rw [hcase], hSmem, hTmem⟩
  unfold deleteEdgeTx
  have hany : (s.nodes.any (fun n => n.id == id && n.type == RELATIONSHIP_TYPE)) = true := by
    rw [List.any_eq_true]
    exact ⟨R, hR, by simp [hRid, hRty]⟩
  rw [if_pos hany]
  exact hdel DeleteMode.CASCADE

/-- Witness for C5 at the concrete structured-relationship store. -/
theorem deleteEdge_structured_cascade_witness :
    deleteEdgeTx "R" structScenarioStore2 =
      (deleteRelNodeCase1 "R" structScenarioStore2, .ok ()) ∧
    deleteNodeTx "R" DeleteMode.KEEP_CONNECTED structScenarioStore2 =
      (deleteRelNodeCase1 "R" structScenarioStore2, .ok ()) ∧
    (deleteRelNodeCase1 "R" structScenarioStore2).rels =
      structScenarioStore2.rels.filter (fun e => e.id != "r1" && e.id != "r2") ∧
    (deleteRelNodeCase1 "R" structScenarioStore2).relProps =
      structScenarioStore2.relProps.filter
        (fun p => p.owner != "r1" && p.owner != "r2") ∧
    (deleteRelNodeCase1 "R" structScenarioStore2).nodes =
      structScenarioStore2.nodes.filter (fun n => n.id != "R") ∧
    (deleteRelNodeCase1 "R" structScenarioStore2).nodeProps =
      structScenarioStore2.nodeProps.filter (fun p => p.owner != "R") ∧
    (⟨"A", "person", "Alice", true, "t", "t"⟩ : NodeRow) ∈
      (deleteRelNodeCase1 "R" structScenarioStore2).nodes ∧
    (⟨"B", "person", "Bob", true, "t", "t"⟩ : NodeRow) ∈
      (deleteRelNodeCase1 "R" structScenarioStore2).nodes := by
  have h := deleteEdge_structured_cascade structScenarioStore2 "R"
    DeleteMode.KEEP_CONNECTED
    ⟨"R", RELATIONSHIP_TYPE, "owns", true, "t", "t"⟩
    ⟨"r1", some "A", some "R", RELAY, "t"⟩
    ⟨"r2", some "R", some "B", RELAY, "t"⟩
    ⟨"A", "person", "Alice", true, "t", "t"⟩
    ⟨"B", "person", "Bob", true, "t", "t"⟩
    (by decide) (by decide) (by decide) (by decide) (by decide) (by decide)
    (by decide) (by decide) (by decide) (by decide) (by decide) (by decide)
    (by decide)
  exact h

/-- An edge having `r` as one of its endpoints. -/
def edgeTouches (r : String) (e : EdgeRow) : Bool :=
  e.source_id == some r || e.target_id == some r

/-- `r` is the id of a RELATIONSHIP_TYPE node of `s`. -/
def isRelNode (s : Store) (r : String) : Prop :=
  ∃ n ∈ s.nodes, n.id = r ∧ n.type = RELATIONSHIP_TYPE

/-- The store `s` with a set `D` of relationship nodes deleted together with
every edge touching them and the properties of those edges and nodes (the
cumulative effect of the recursive relationship-node deletions performed by
`deleteNode` in CASCADE mode). -/
def pruned (s : Store) (D : List String) : Store :=
  { nodes := s.nodes.filter (fun n => !(D.contains n.id))
    nodeProps := s.nodeProps.filter (fun p => !(D.contains p.owner))
    rels := s.rels.filter (fun e => !(D.any (fun r => edgeTouches r e)))
    relProps := s.relProps.filter (fun p =>
      !(s.rels.any (fun e => e.id == p.owner && D.any (fun r => edgeTouches r e)))) }

theorem pruned_nil (s : Store) : pruned s [] = s := by
  unfold pruned
  congr 1
  · apply List.filter_eq_self.mpr; intro a _; simp
  · apply List.filter_eq_self.mpr; intro a _; simp
  · apply List.filter_eq_self.mpr; intro a _; simp
  · apply List.filter_eq_self.mpr; intro a _; simp

theorem mem_of_filter_eq_singleton {α : Type} {l : List α} {p : α → Bool}
    {a : α} (h : l.filter p = [a]) : a ∈ l ∧ p a = true := by
  have : a ∈ l.filter p := by rw [h]; exact List.mem_singleton_self a
  exact ⟨(List.mem_filter.mp this).1, (List.mem_filter.mp this).2⟩

theorem eq_of_mem_id_nodup {l : List EdgeRow}
    (hnd : (l.map (fun e => e.id)).Nodup) {a b : EdgeRow}
    (ha : a ∈ l) (hb : b ∈ l) (hid : a.id = b.id) : a = b :=
  List.inj_on_of_nodup_map hnd ha hb hid

theorem node_eq_of_mem_id_nodup {l : List NodeRow}
    (hnd : (l.map (fun n => n.id)).Nodup) {a b : NodeRow}
    (ha : a ∈ l) (hb : b ∈ l) (hid : a.id = b.id) : a = b :=
  List.inj_on_of_nodup_map hnd ha hb hid


theorem bool_eq_of_iff {a b : Bool} (h : a = true ↔ b = true) : a = b := by
  cases a <;> cases b <;> simp_all

theorem any_eq_false_of_not {α : Type} {l : List α} {p : α → Bool}
    (h : ¬ ∃ x ∈ l, p x = true) : l.any p = false := by
  cases hh : l.any p
  · rfl
  · exact absurd (List.any_eq_true.mp hh) h

theorem deleteRelNodeCase1_pruned_step (s : Store) (hWF : WF s) (R : NodeRow)
    (hRmem : R ∈ s.nodes) (hRty : R.type = RELATIONSHIP_TYPE)
    (D : List String) (hD : ∀ d ∈ D, isRelNode s d) (hrD : R.id ∉ D) :
    deleteRelNodeCase1 R.id (pruned s D) = pruned s (D ++ [R.id]) := by
  obtain ⟨wfN, wfE, wfNE, wfNid, wfEid, wfEnd, wfRel, wfAtt⟩ := hWF
  obtain ⟨hTouchRelay, hInLen, hOutLen, hEnds, hLab⟩ := wfRel R hRmem hRty
  obtain ⟨e1, hIn⟩ := List.length_eq_one.mp hInLen
  obtain ⟨e2, hOut⟩ := List.length_eq_one.mp hOutLen
  obtain ⟨he1mem, he1p⟩ := mem_of_filter_eq_singleton hIn
  obtain ⟨he2mem, he2p⟩ := mem_of_filter_eq_singleton hOut
  rw [Bool.and_eq_true] at he1p he2p
  have he1t : e1.target_id = some R.id := by simpa using he1p.1
  have he1ty : e1.type = RELAY := by simpa using he1p.2
  have he2s : e2.source_id = some R.id := by simpa using he2p.1
  have he2ty : e2.type = RELAY := by simpa using he2p.2
  obtain ⟨S, hSmem, hSeq, hSty⟩ := (hEnds e1 he1mem he1ty).1 he1t
  obtain ⟨T, hTmem, hTeq, hTty⟩ := (hEnds e2 he2mem he2ty).2 he2s
  -- the two relay edges are distinct
  have he12 : e1.id ≠ e2.id := by
    intro hc
    have : e1 = e2 := eq_of_mem_id_nodup wfE he1mem he2mem hc
    subst this
    obtain ⟨m, hmmem, hmeq, hmty⟩ := (hEnds e1 he1mem he1ty).1 he1t
    have hmR : m.id = R.id := by
      have := hmeq
      rw [he2s] at this
      simpa using this
    have : m = R := node_eq_of_mem_id_nodup wfN hmmem hRmem hmR
    exact hmty (this ▸ hRty)
  -- no member of D touches e1 or e2
  have hkeep : ∀ e : EdgeRow, e ∈ s.rels →
      (∀ x : String, e.source_id = some x →
        (∃ m ∈ s.nodes, m.id = x ∧ m.type ≠ RELATIONSHIP_TYPE)) →
      (∀ x : String, e.target_id = some x →
        x = R.id ∨ (∃ m ∈ s.nodes, m.id = x ∧ m.type ≠ RELATIONSHIP_TYPE)) →
      True := fun _ _ _ _ => trivial
  have hkeep1 : (D.any (fun r => edgeTouches r e1)) = false := by
    apply any_eq_false_of_not
    rintro ⟨d, hd, hdt⟩
    rw [edgeTouches, Bool.or_eq_true] at hdt
    obtain ⟨Rd, hRdmem, hRdid, hRdty⟩ := hD d hd
    rcases hdt with hsrc | htgt
    · have : e1.source_id = some d := by simpa using hsrc
      rw [← hSeq] at this
      have hds : d = S.id := by simpa using this.symm
      have : Rd = S := node_eq_of_mem_id_nodup wfN hRdmem hSmem (by rw [hRdid, hds])
      exact hSty (this ▸ hRdty)
    · have : e1.target_id = some d := by simpa using htgt
      rw [he1t] at this
      have : R.id = d := by simpa using this
      exact hrD (this ▸ hd)
  have hkeep2 : (D.any (fun r => edgeTouches r e2)) = false := by
    apply any_eq_false_of_not
    rintro ⟨d, hd, hdt⟩
    rw [edgeTouches, Bool.or_eq_true] at hdt
    obtain ⟨Rd, hRdmem, hRdid, hRdty⟩ := hD d hd
    rcases hdt with hsrc | htgt
    · have : e2.source_id = some d := by simpa using hsrc
      rw [he2s] at this
      have : R.id = d := by simpa using this
      exact hrD (this ▸ hd)
    · have : e2.target_id = some d := by simpa using htgt
      rw [← hTeq] at this
      have hds : d = T.id := by simpa using this.symm
      have : Rd = T := node_eq_of_mem_id_nodup wfN hRdmem hTmem (by rw [hRdid, hds])
      exact hTty (this ▸ hRdty)
  have hInP : (pruned s D).rels.filter
      (fun e => e.target_id == some R.id && e.type == RELAY) = [e1] := by
    show ((s.rels.filter (fun e => !(D.any (fun r => edgeTouches r e)))).filter
      (fun e => e.target_id == some R.id && e.type == RELAY)) = [e1]
    rw [List.filter_comm, hIn]
    simp [List.filter_cons, hkeep1]
  have hOutPruned : (pruned s D).rels.filter
      (fun e => e.source_id == some R.id && e.type == RELAY) = [e2] := by
    show ((s.rels.filter (fun e => !(D.any (fun r => edgeTouches r e)))).filter
      (fun e => e.source_id == some R.id && e.type == RELAY)) = [e2]
    rw [List.filter_comm, hOut]
    simp [List.filter_cons, hkeep2]
  have hOutP : (((pruned s D).rels.filter (fun e => e.id != e1.id)).filter
      (fun e => e.source_id == some R.id && e.type == RELAY)) = [e2] := by
    rw [List.filter_comm, hOutPruned]
    have hne : (e2.id != e1.id) = true := by
      simp only [bne_iff_ne, ne_eq]
      exact fun hc => he12 hc.symm
    simp [List.filter_cons, hne]
  unfold deleteRelNodeCase1 deleteEdgeRows
  rw [hInP]
  simp only [List.head?_cons, Option.getD_some]
  rw [hOutP]
  simp only [List.head?_cons, Option.getD_some]
  have hre : ∀ e ∈ s.rels, edgeTouches R.id e = true → e = e1 ∨ e = e2 := by
    intro e he ht
    rw [edgeTouches, Bool.or_eq_true] at ht
    have hty : e.type = RELAY := by
      apply hTouchRelay e he
      rcases ht with h | h
      · exact Or.inl (by simpa using h)
      · exact Or.inr (by simpa using h)
    rcases ht with hsrc | htgt
    · right
      have : e ∈ s.rels.filter (fun x => x.source_id == some R.id && x.type == RELAY) :=
        List.mem_filter.mpr ⟨he, by simp [hsrc, hty]⟩
      rw [hOut] at this
      simpa using this
    · left
      have : e ∈ s.rels.filter (fun x => x.target_id == some R.id && x.type == RELAY) :=
        List.mem_filter.mpr ⟨he, by simp [htgt, hty]⟩
      rw [hIn] at this
      simpa using this
  have he1touch : edgeTouches R.id e1 = true := by
    rw [edgeTouches, Bool.or_eq_true]
    right
    simp [he1t]
  have he2touch : edgeTouches R.id e2 = true := by
    rw [edgeTouches, Bool.or_eq_true]
    left
    simp [he2s]
  unfold pruned
  simp only []
  congr 1
  · rw [List.filter_filter]
    apply List.filter_congr
    intro n _
    apply bool_eq_of_iff
    simp [not_or]
    tauto
  · rw [List.filter_filter]
    apply List.filter_congr
    intro p _
    apply bool_eq_of_iff
    simp [not_or]
    tauto
  · rw [List.filter_filter, List.filter_filter]
    apply List.filter_congr
    intro e hemem
    apply bool_eq_of_iff
    constructor
    · intro h
      rw [Bool.and_eq_true, Bool.and_eq_true] at h
      obtain ⟨⟨hne2, hne1⟩, hprune⟩ := h
      rw [Bool.not_eq_true'] at hprune ⊢
      apply any_eq_false_of_not
      rintro ⟨d, hd, ht⟩
      rcases List.mem_append.mp hd with hdD | hdr
      · have : D.any (fun r => edgeTouches r e) = true :=
          List.any_eq_true.mpr ⟨d, hdD, ht⟩
        rw [hprune] at this
        exact Bool.false_ne_true this
      · have hdR : d = R.id := by simpa using hdr
        subst hdR
        rcases hre e hemem ht with rfl | rfl
        · simp at hne1
        · simp at hne2
    · intro h
      rw [Bool.not_eq_true'] at h
      have hnot := not_any_of_eq_false (by rw [h]; exact Bool.false_ne_true)
      rw [Bool.and_eq_true, Bool.and_eq_true]
      refine ⟨⟨?_, ?_⟩, ?_⟩
      · simp only [bne_iff_ne, ne_eq]
        intro hc
        have : e = e2 := eq_of_mem_id_nodup wfE hemem he2mem hc
        subst this
        exact hnot R.id (List.mem_append.mpr (Or.inr (List.mem_singleton_self _)))
          he2touch
      · simp only [bne_iff_ne, ne_eq]
        intro hc
        have : e = e1 := eq_of_mem_id_nodup wfE hemem he1mem hc
        subst this
        exact hnot R.id (List.mem_append.mpr (Or.inr (List.mem_singleton_self _)))
          he1touch
      · rw [Bool.not_eq_true']
        apply any_eq_false_of_not
        rintro ⟨d, hd, ht⟩
        exact hnot d (List.mem_append.mpr (Or.inl hd)) ht
  · rw [List.filter_filter, List.filter_filter]
    apply List.filter_congr
    intro p _
    apply bool_eq_of_iff
    constructor
    · intro h
      rw [Bool.and_eq_true, Bool.and_eq_true] at h
      obtain ⟨⟨hne2, hne1⟩, hprune⟩ := h
      rw [Bool.not_eq_true'] at hprune ⊢
      apply any_eq_false_of_not
      rintro ⟨e, hemem, hpe⟩
      rw [Bool.and_eq_true] at hpe
      obtain ⟨hid, htouch⟩ := hpe
      rcases List.any_eq_true.mp htouch with ⟨d, hd, ht⟩
      rcases List.mem_append.mp hd with hdD | hdr
      · have : s.rels.any (fun x => x.id == p.owner &&
            D.any (fun r => edgeTouches r x)) = true :=
          List.any_eq_true.mpr ⟨e, hemem, by
            rw [Bool.and_eq_true]
            exact ⟨hid, List.any_eq_true.mpr ⟨d, hdD, ht⟩⟩⟩
        rw [hprune] at this
        exact Bool.false_ne_true this
      · have hdR : d = R.id := by simpa using hdr
        subst hdR
        rcases hre e hemem ht with rfl | rfl
        · have hpo : e.id = p.owner := by simpa using hid
          exact absurd hpo.symm (by simpa using hne1)
        · have hpo : e.id = p.owner := by simpa using hid
          exact absurd hpo.symm (by simpa using hne2)
    · intro h
      rw [Bool.not_eq_true'] at h
      have hnot := not_any_of_eq_false (by rw [h]; exact Bool.false_ne_true)
      rw [Bool.and_eq_true, Bool.and_eq_true]
      refine ⟨⟨?_, ?_⟩, ?_⟩
      · simp only [bne_iff_ne, ne_eq]
        intro hc
        apply hnot e2 he2mem
        rw [Bool.and_eq_true]
        refine ⟨by simp [hc], List.any_eq_true.mpr ⟨R.id,
          List.mem_append.mpr (Or.inr (List.mem_singleton_self _)), he2touch⟩⟩
      · simp only [bne_iff_ne, ne_eq]
        intro hc
        apply hnot e1 he1mem
        rw [Bool.and_eq_true]
        refine ⟨by simp [hc], List.any_eq_true.mpr ⟨R.id,
          List.mem_append.mpr (Or.inr (List.mem_singleton_self _)), he1touch⟩⟩
      · rw [Bool.not_eq_true']
        apply any_eq_false_of_not
        rintro ⟨e, hemem, hpe⟩
        rw [Bool.and_eq_true] at hpe
        apply hnot e hemem
        rw [Bool.and_eq_true]
        refine ⟨hpe.1, ?_⟩
        rcases List.any_eq_true.mp hpe.2 with ⟨d, hd, ht⟩
        exact List.any_eq_true.mpr ⟨d, List.mem_append.mpr (Or.inl hd), ht⟩

/-- The outgoing relay edges of `id` (the `outgoingRelations` query of
`deleteNode`, lines 706-711). -/
def outRelaysOf (id : String) (s : Store) : List EdgeRow :=
  s.rels.filter (fun e => e.source_id == some id && e.type == RELAY)

/-- The incoming relay edges of `id` (the `incomingRelations` query of
`deleteNode`, lines 728-733). -/
def inRelaysOf (id : String) (s : Store) : List EdgeRow :=
  s.rels.filter (fun e => e.target_id == some id && e.type == RELAY)

/-- The remaining direct (non-relay) edges of `id` (the `directRelationships`
query of `deleteNode`, lines 752-757). -/
def directEdgesOf (id : String) (s : Store) : List EdgeRow :=
  s.rels.filter (fun e =>
    (e.source_id == some id || e.target_id == some id) && e.type != RELAY)

/-- The store after the outgoing-relay partner loop of `deleteNodeOp`. -/
def cascadeS1 (id : String) (fuel : Nat) (s : Store) : Store :=
  (outRelaysOf id s).foldl (fun acc e => cascadePartnerStep fuel e.target_id acc) s

/-- The store after both partner loops of `deleteNodeOp`. -/
def cascadeS2 (id : String) (fuel : Nat) (s : Store) : Store :=
  (inRelaysOf id (cascadeS1 id fuel s)).foldl
    (fun acc e => cascadePartnerStep fuel e.source_id acc) (cascadeS1 id fuel s)

/-- The store after the partner loops and the direct-edge deletion loop of
`deleteNodeOp`. -/
def cascadeS3 (id : String) (fuel : Nat) (s : Store) : Store :=
  (directEdgesOf id (cascadeS2 id fuel s)).foldl
    (fun acc e => deleteEdgeRows e.id acc) (cascadeS2 id fuel s)

/-- The full result of `deleteNodeOp` on a regular (non-relationship) node in
CASCADE mode: the partner loops, the direct-edge loop, then the node's
properties and the node itself. -/
def cascadeRegular (id : String) (fuel : Nat) (s : Store) : Store :=
  { cascadeS3 id fuel s with
    nodeProps := (cascadeS3 id fuel s).nodeProps.filter (fun p => p.owner != id)
    nodes := (cascadeS3 id fuel s).nodes.filter (fun m => m.id != id) }

/-- The ids of the relationship-node partners deleted by the two partner loops
of `deleteNodeOp` for a regular node `id`. -/
def cascadeDeleted (id : String) (s : Store) : List String :=
  (outRelaysOf id s).filterMap (fun e => e.target_id) ++
  (inRelaysOf id
      (pruned s ((outRelaysOf id s).filterMap (fun e => e.target_id)))).filterMap
    (fun e => e.source_id)

theorem deleteNodeOp_cascade_regular (s : Store) (N : NodeRow)
    (hfind : s.nodes.find? (fun n => n.id == N.id) = some N)
    (hNty : ¬ N.type = RELATIONSHIP_TYPE) :
    deleteNodeOp N.id .CASCADE s =
      (cascadeRegular N.id (s.nodes.length + 1) s, .ok ()) := by
  unfold deleteNodeOp getNodeOp
  simp only [hfind]
  rw [if_neg hNty]
  simp only [if_true]
  rfl

theorem deleteNodeOp_rel_eq (s : Store) (N : NodeRow) (mode : DeleteMode)
    (hfind : s.nodes.find? (fun n => n.id == N.id) = some N)
    (hNty : N.type = RELATIONSHIP_TYPE) :
    deleteNodeOp N.id mode s = (deleteRelNodeCase1 N.id s, .ok ()) := by
  unfold deleteNodeOp getNodeOp
  simp only [hfind]
  rw [if_pos hNty]

theorem cascadePartnerStep_pruned (s : Store) (hWF : WF s) (fuel : Nat)
    (R : NodeRow) (hRmem : R ∈ s.nodes) (hRty : R.type = RELATIONSHIP_TYPE)
    (D : List String) (hD : ∀ d ∈ D, isRelNode s d) (hrD : R.id ∉ D) :
    cascadePartnerStep (fuel + 1) (some R.id) (pruned s D) =
      pruned s (D ++ [R.id]) := by
  have wfN := hWF.1
  have hmem' : R ∈ (pruned s D).nodes := by
    show R ∈ s.nodes.filter _
    refine List.mem_filter.mpr ⟨hRmem, ?_⟩
    simp [hrD]
  have hnodupP : (((pruned s D).nodes).map (fun n => n.id)).Nodup := by
    show ((s.nodes.filter _).map (fun n => n.id)).Nodup
    exact wfN.sublist ((List.filter_sublist s.nodes).map _)
  have hfind : (pruned s D).nodes.find? (fun n => n.id == R.id) = some R :=
    find?_key_unique (fun n => n.id) _ hnodupP R hmem' R.id rfl
  unfold cascadePartnerStep getNodeOp
  simp only [hfind]
  rw [if_pos hRty]
  unfold deleteNodeInternal
  simp only [hfind]
  rw [if_pos hRty]
  exact deleteRelNodeCase1_pruned_step s hWF R hRmem hRty D hD hrD

theorem nodup_filterMap_of_inj_on {α β : Type} {l : List α} (f : α → Option β)
    (hl : l.Nodup)
    (hinj : ∀ a ∈ l, ∀ b ∈ l, ∀ c, f a = some c → f b = some c → a = b) :
    (l.filterMap f).Nodup := by
  induction l with
  | nil => simp
  | cons a t ih =>
    rw [List.nodup_cons] at hl
    have hinj' : ∀ x ∈ t, ∀ y ∈ t, ∀ c, f x = some c → f y = some c → x = y :=
      fun x hx y hy c h1 h2 =>
        hinj x (List.mem_cons_of_mem a hx) y (List.mem_cons_of_mem a hy) c h1 h2
    cases hfa : f a with
    | none =>
      simp only [List.filterMap_cons, hfa]
      exact ih hl.2 hinj'
    | some c =>
      simp only [List.filterMap_cons, hfa]
      rw [List.nodup_cons]
      refine ⟨?_, ih hl.2 hinj'⟩
      intro hc
      obtain ⟨b, hb, hfb⟩ := List.mem_filterMap.mp hc
      have hab : a = b := hinj a (List.mem_cons_self a t) b
        (List.mem_cons_of_mem a hb) c hfa hfb
      exact hl.1 (hab ▸ hb)

theorem cascade_fold_pruned (s : Store) (hWF : WF s) (fuel : Nat)
    (sel : EdgeRow → Option String) :
    ∀ L : List EdgeRow,
      (∀ e ∈ L, ∃ R : NodeRow, R ∈ s.nodes ∧ R.type = RELATIONSHIP_TYPE ∧
        sel e = some R.id) →
      (L.filterMap sel).Nodup →
      ∀ D : List String, (∀ d ∈ D, isRelNode s d) →
        (∀ r ∈ L.filterMap sel, r ∉ D) →
        L.foldl (fun acc e => cascadePartnerStep (fuel + 1) (sel e) acc)
            (pruned s D) = pruned s (D ++ L.filterMap sel) := by
  intro L
  induction L with
  | nil =>
    intro _ _ D _ _
    simp
  | cons e L' ih =>
    intro hL hnd D hD hdisj
    obtain ⟨R, hRmem, hRty, hsel⟩ := hL e (List.mem_cons_self e L')
    have hfm : (e :: L').filterMap sel = R.id :: L'.filterMap sel := by
      simp [List.filterMap_cons, hsel]
    have hrD : R.id ∉ D := hdisj R.id (hfm ▸ List.mem_cons_self R.id _)
    rw [hfm] at hnd
    rw [List.nodup_cons] at hnd
    simp only [List.foldl_cons]
    rw [hsel, cascadePartnerStep_pruned s hWF fuel R hRmem hRty D hD hrD]
    have hD' : ∀ d ∈ D ++ [R.id], isRelNode s d := by
      intro d hd
      rcases List.mem_append.mp hd with h | h
      · exact hD d h
      · have hdR : d = R.id := by simpa using h
        exact hdR ▸ ⟨R, hRmem, rfl, hRty⟩
    have hdisj' : ∀ r ∈ L'.filterMap sel, r ∉ D ++ [R.id] := by
      intro r hr hc
      rcases List.mem_append.mp hc with h | h
      · exact hdisj r (hfm ▸ List.mem_cons_of_mem R.id hr) h
      · have hrR : r = R.id := by simpa using h
        exact hnd.1 (hrR ▸ hr)
    rw [ih (fun e' he' => hL e' (List.mem_cons_of_mem e he')) hnd.2
      (D ++ [R.id]) hD' hdisj']
    rw [hfm, List.append_assoc]
    rfl

theorem outRelays_target_rel (s : Store) (hWF : WF s) (N : NodeRow)
    (hNmem : N ∈ s.nodes) (hNty : ¬ N.type = RELATIONSHIP_TYPE) :
    ∀ e ∈ outRelaysOf N.id s, ∃ R : NodeRow, R ∈ s.nodes ∧
      R.type = RELATIONSHIP_TYPE ∧ e.target_id = some R.id := by
  obtain ⟨wfN, _, _, _, _, _, _, wfAtt⟩ := hWF
  intro e he
  obtain ⟨hes, hep⟩ := List.mem_filter.mp he
  rw [Bool.and_eq_true] at hep
  have hsrc : e.source_id = some N.id := by simpa using hep.1
  have hty : e.type = RELAY := by simpa using hep.2
  obtain ⟨n, hnmem, hnty, hend⟩ := wfAtt e hes hty
  rcases hend with h | h
  · rw [hsrc] at h
    have hid : n.id = N.id := by simpa using h.symm
    have : n = N := node_eq_of_mem_id_nodup wfN hnmem hNmem hid
    exact absurd (this ▸ hnty) hNty
  · exact ⟨n, hnmem, hnty, h⟩

theorem inRelays_source_rel (s : Store) (hWF : WF s) (N : NodeRow)
    (hNmem : N ∈ s.nodes) (hNty : ¬ N.type = RELATIONSHIP_TYPE)
    (D : List String) :
    ∀ e ∈ inRelaysOf N.id (pruned s D), ∃ R : NodeRow, R ∈ s.nodes ∧
      R.type = RELATIONSHIP_TYPE ∧ e.source_id = some R.id := by
  obtain ⟨wfN, _, _, _, _, _, _, wfAtt⟩ := hWF
  intro e he
  obtain ⟨heP, hep⟩ := List.mem_filter.mp he
  have hes : e ∈ s.rels := (List.mem_filter.mp (show e ∈ s.rels.filter
    (fun e => !(D.any (fun r => edgeTouches r e))) from heP)).1
  rw [Bool.and_eq_true] at hep
  have htgt : e.target_id = some N.id := by simpa using hep.1
  have hty : e.type = RELAY := by simpa using hep.2
  obtain ⟨n, hnmem, hnty, hend⟩ := wfAtt e hes hty
  rcases hend with h | h
  · exact ⟨n, hnmem, hnty, h⟩
  · rw [htgt] at h
    have hid : n.id = N.id := by simpa using h.symm
    have : n = N := node_eq_of_mem_id_nodup wfN hnmem hNmem hid
    exact absurd (this ▸ hnty) hNty

theorem rels_nodup_of_WF (s : Store) (hWF : WF s) : s.rels.Nodup :=
  (hWF.2.1).of_map

theorem outRelays_targets_nodup (s : Store) (hWF : WF s) (N : NodeRow)
    (hNmem : N ∈ s.nodes) (hNty : ¬ N.type = RELATIONSHIP_TYPE) :
    ((outRelaysOf N.id s).filterMap (fun e => e.target_id)).Nodup := by
  apply nodup_filterMap_of_inj_on
  · exact (rels_nodup_of_WF s hWF).filter _
  · intro a ha b hb c hfa hfb
    obtain ⟨R, hRmem, hRty, hta⟩ := outRelays_target_rel s hWF N hNmem hNty a ha
    have hc : c = R.id := by rw [hfa] at hta; simpa using hta
    subst hc
    obtain ⟨_, hInLen, _, _, _⟩ := (hWF.2.2.2.2.2.2.1) R hRmem hRty
    obtain ⟨x, hx⟩ := List.length_eq_one.mp hInLen
    have haty : a.type = RELAY := by
      have := (List.mem_filter.mp ha).2
      rw [Bool.and_eq_true] at this
      simpa using this.2
    have hbty : b.type = RELAY := by
      have := (List.mem_filter.mp hb).2
      rw [Bool.and_eq_true] at this
      simpa using this.2
    have haf : a ∈ s.rels.filter
        (fun e => e.target_id == some R.id && e.type == RELAY) :=
      List.mem_filter.mpr ⟨(List.mem_filter.mp ha).1, by simp [hfa, haty]⟩
    have hbf : b ∈ s.rels.filter
        (fun e => e.target_id == some R.id && e.type == RELAY) :=
      List.mem_filter.mpr ⟨(List.mem_filter.mp hb).1, by simp [hfb, hbty]⟩
    rw [hx] at haf hbf
    have ha' : a = x := by simpa using haf
    have hb' : b = x := by simpa using hbf
    rw [ha', hb']

theorem inRelays_sources_nodup (s : Store) (hWF : WF s) (N : NodeRow)
    (hNmem : N ∈ s.nodes) (hNty : ¬ N.type = RELATIONSHIP_TYPE)
    (D : List String) :
    ((inRelaysOf N.id (pruned s D)).filterMap (fun e => e.source_id)).Nodup := by
  apply nodup_filterMap_of_inj_on
  · exact (((rels_nodup_of_WF s hWF).filter _).filter _)
  · intro a ha b hb c hfa hfb
    obtain ⟨R, hRmem, hRty, hsa⟩ := inRelays_source_rel s hWF N hNmem hNty D a ha
    have hc : c = R.id := by rw [hfa] at hsa; simpa using hsa
    subst hc
    obtain ⟨_, _, hOutLen, _, _⟩ := (hWF.2.2.2.2.2.2.1) R hRmem hRty
    obtain ⟨x, hx⟩ := List.length_eq_one.mp hOutLen
    have hamem : a ∈ s.rels := (List.mem_filter.mp (show a ∈ s.rels.filter
      (fun e => !(D.any (fun r => edgeTouches r e)))
      from (List.mem_filter.mp ha).1)).1
    have hbmem : b ∈ s.rels := (List.mem_filter.mp (show b ∈ s.rels.filter
      (fun e => !(D.any (fun r => edgeTouches r e)))
      from (List.mem_filter.mp hb).1)).1
    have haty : a.type = RELAY := by
      have := (List.mem_filter.mp ha).2
      rw [Bool.and_eq_true] at this
      simpa using this.2
    have hbty : b.type = RELAY := by
      have := (List.mem_filter.mp hb).2
      rw [Bool.and_eq_true] at this
      simpa using this.2
    have haf : a ∈ s.rels.filter
        (fun e => e.source_id == some R.id && e.type == RELAY) :=
      List.mem_filter.mpr ⟨hamem, by simp [hfa, haty]⟩
    have hbf : b ∈ s.rels.filter
        (fun e => e.source_id == some R.id && e.type == RELAY) :=
      List.mem_filter.mpr ⟨hbmem, by simp [hfb, hbty]⟩
    rw [hx] at haf hbf
    have ha' : a = x := by simpa using haf
    have hb' : b = x := by simpa using hbf
    rw [ha', hb']

theorem inRelays_sources_not_deleted (s : Store) (N : NodeRow)
    (D : List String) :
    ∀ r ∈ (inRelaysOf N.id (pruned s D)).filterMap (fun e => e.source_id),
      r ∉ D := by
  intro r hr hrD
  obtain ⟨e, he, hsrc⟩ := List.mem_filterMap.mp hr
  obtain ⟨_, hkeep⟩ := List.mem_filter.mp (show e ∈ s.rels.filter
    (fun e => !(D.any (fun r => edgeTouches r e)))
    from (List.mem_filter.mp he).1)
  have : D.any (fun d => edgeTouches d e) = true :=
    List.any_eq_true.mpr ⟨r, hrD, by rw [edgeTouches]; simp [hsrc]⟩
  rw [this] at hkeep
  simp at hkeep

theorem cascadeS1_pruned (s : Store) (hWF : WF s) (fuel : Nat) (N : NodeRow)
    (hNmem : N ∈ s.nodes) (hNty : ¬ N.type = RELATIONSHIP_TYPE) :
    cascadeS1 N.id (fuel + 1) s =
      pruned s ((outRelaysOf N.id s).filterMap (fun e => e.target_id)) := by
  unfold cascadeS1
  nth_rewrite 1 [show s = pruned s [] from (pruned_nil s).symm]
  rw [cascade_fold_pruned s hWF fuel (fun e => e.target_id) (outRelaysOf N.id s)
    (outRelays_target_rel s hWF N hNmem hNty)
    (outRelays_targets_nodup s hWF N hNmem hNty)
    [] (fun d hd => absurd hd (List.not_mem_nil d))
    (fun r _ hc => absurd hc (List.not_mem_nil r))]
  rw [List.nil_append]

theorem cascadeS2_pruned (s : Store) (hWF : WF s) (fuel : Nat) (N : NodeRow)
    (hNmem : N ∈ s.nodes) (hNty : ¬ N.type = RELATIONSHIP_TYPE) :
    cascadeS2 N.id (fuel + 1) s = pruned s (cascadeDeleted N.id s) := by
  unfold cascadeS2 cascadeDeleted
  rw [cascadeS1_pruned s hWF fuel N hNmem hNty]
  exact cascade_fold_pruned s hWF fuel (fun e => e.source_id)
    (inRelaysOf N.id (pruned s ((outRelaysOf N.id s).filterMap
      (fun e => e.target_id))))
    (inRelays_source_rel s hWF N hNmem hNty _)
    (inRelays_sources_nodup s hWF N hNmem hNty _)
    _
    (fun d hd => (List.mem_filterMap.mp hd).elim (fun e he =>
      (outRelays_target_rel s hWF N hNmem hNty e he.1).elim
        (fun R hR => by
          obtain ⟨hRmem, hRty, hte⟩ := hR
          have : d = R.id := by rw [he.2] at hte; simpa using hte
          exact this ▸ ⟨R, hRmem, rfl, hRty⟩)))
    (inRelays_sources_not_deleted s N _)

theorem not_any_cons_eq {α : Type} (p : α → Bool) (a : α) (l : List α) :
    (!((a :: l).any p)) = (!(l.any p) && !(p a)) := by
  rw [List.any_cons, Bool.not_or, Bool.and_comm]

theorem bne_comm_not (a b : String) : (a != b) = !(b == a) := by
  apply bool_eq_of_iff
  constructor
  · intro h
    simp only [bne_iff_ne, ne_eq] at h
    simp only [Bool.not_eq_true', beq_eq_false_iff_ne, ne_eq]
    exact fun hc => h hc.symm
  · intro h
    simp only [Bool.not_eq_true', beq_eq_false_iff_ne, ne_eq] at h
    simp only [bne_iff_ne, ne_eq]
    exact fun hc => h hc.symm

theorem deleteEdgeRows_foldl :
    ∀ (L : List EdgeRow) (t : Store),
      L.foldl (fun acc e => deleteEdgeRows e.id acc) t =
      { t with
        rels := t.rels.filter (fun e => !(L.any (fun d => d.id == e.id)))
        relProps := t.relProps.filter (fun p =>
          !(L.any (fun d => d.id == p.owner))) } := by
  intro L
  induction L with
  | nil =>
    intro t
    simp
  | cons d L' ih =>
    intro t
    simp only [List.foldl_cons]
    rw [ih (deleteEdgeRows d.id t)]
    unfold deleteEdgeRows
    congr 1
    · rw [List.filter_filter]
      apply List.filter_congr
      intro e _
      rw [not_any_cons_eq]
      congr 1
      exact bne_comm_not e.id d.id
    · rw [List.filter_filter]
      apply List.filter_congr
      intro p _
      rw [not_any_cons_eq]
      congr 1
      exact bne_comm_not p.owner d.id

theorem cascadeS3_rels (s : Store) (hWF : WF s) (fuel : Nat) (N : NodeRow)
    (hNmem : N ∈ s.nodes) (hNty : ¬ N.type = RELATIONSHIP_TYPE) :
    (cascadeS3 N.id (fuel + 1) s).rels =
      (pruned s (cascadeDeleted N.id s)).rels.filter (fun e =>
        !((directEdgesOf N.id (pruned s (cascadeDeleted N.id s))).any
          (fun d => d.id == e.id))) := by
  unfold cascadeS3
  rw [cascadeS2_pruned s hWF fuel N hNmem hNty, deleteEdgeRows_foldl]

theorem cascadeS3_relProps (s : Store) (hWF : WF s) (fuel : Nat) (N : NodeRow)
    (hNmem : N ∈ s.nodes) (hNty : ¬ N.type = RELATIONSHIP_TYPE) :
    (cascadeS3 N.id (fuel + 1) s).relProps =
      (pruned s (cascadeDeleted N.id s)).relProps.filter (fun p =>
        !((directEdgesOf N.id (pruned s (cascadeDeleted N.id s))).any
          (fun d => d.id == p.owner))) := by
  unfold cascadeS3
  rw [cascadeS2_pruned s hWF fuel N hNmem hNty, deleteEdgeRows_foldl]

theorem no_surviving_relay (s : Store) (hWF : WF s) (N : NodeRow)
    (hNmem : N ∈ s.nodes) (hNty : ¬ N.type = RELATIONSHIP_TYPE) :
    ∀ e ∈ (pruned s (cascadeDeleted N.id s)).rels, e.type = RELAY →
      edgeTouches N.id e = false := by
  intro e he hty
  obtain ⟨hes, hkeep⟩ := List.mem_filter.mp (show e ∈ s.rels.filter
    (fun e => !((cascadeDeleted N.id s).any (fun r => edgeTouches r e))) from he)
  cases ht : edgeTouches N.id e with
  | false => rfl
  | true =>
    exfalso
    rw [edgeTouches, Bool.or_eq_true] at ht
    rcases ht with hsrc | htgt
    · have hsrc' : e.source_id = some N.id := by simpa using hsrc
      have heOut : e ∈ outRelaysOf N.id s :=
        List.mem_filter.mpr ⟨hes, by simp [hsrc', hty]⟩
      obtain ⟨R, hRmem, hRty, htgtR⟩ :=
        outRelays_target_rel s hWF N hNmem hNty e heOut
      have hRin : R.id ∈ cascadeDeleted N.id s :=
        List.mem_append.mpr (Or.inl (List.mem_filterMap.mpr ⟨e, heOut, htgtR⟩))
      have : (cascadeDeleted N.id s).any (fun r => edgeTouches r e) = true :=
        List.any_eq_true.mpr ⟨R.id, hRin, by rw [edgeTouches]; simp [htgtR]⟩
      rw [this] at hkeep
      simp at hkeep
    · have htgt' : e.target_id = some N.id := by simpa using htgt
      have hkeepOut : (!(((outRelaysOf N.id s).filterMap
          (fun e => e.target_id)).any (fun r => edgeTouches r e))) = true := by
        cases hh : ((outRelaysOf N.id s).filterMap (fun e => e.target_id)).any
            (fun r => edgeTouches r e) with
        | false => rfl
        | true =>
          exfalso
          obtain ⟨d, hd, hdt⟩ := List.any_eq_true.mp hh
          have : (cascadeDeleted N.id s).any (fun r => edgeTouches r e) = true :=
            List.any_eq_true.mpr ⟨d, List.mem_append.mpr (Or.inl hd), hdt⟩
          rw [this] at hkeep
          simp at hkeep
      have heIn : e ∈ inRelaysOf N.id (pruned s ((outRelaysOf N.id s).filterMap
          (fun e => e.target_id))) := by
        refine List.mem_filter.mpr ⟨?_, by simp [htgt', hty]⟩
        show e ∈ s.rels.filter _
        exact List.mem_filter.mpr ⟨hes, hkeepOut⟩
      obtain ⟨R, hRmem, hRty, hsrcR⟩ :=
        inRelays_source_rel s hWF N hNmem hNty _ e heIn
      have hRin : R.id ∈ cascadeDeleted N.id s :=
        List.mem_append.mpr (Or.inr (List.mem_filterMap.mpr ⟨e, heIn, hsrcR⟩))
      have : (cascadeDeleted N.id s).any (fun r => edgeTouches r e) = true :=
        List.any_eq_true.mpr ⟨R.id, hRin, by rw [edgeTouches]; simp [hsrcR]⟩
      rw [this] at hkeep
      simp at hkeep

/-- Claim C7: cascade completeness.  For every node `N` present in a
well-formed store, `deleteNode(N.id, CASCADE)` succeeds, afterwards no row of
the relationships table has `source_id = N.id` or `target_id = N.id`, and no
relationship-properties row belongs to any edge of the original store that
touched `N.id`. -/
theorem deleteNode_cascade_completeness (s : Store) (hWF : WF s)
    (N : NodeRow) (hNmem : N ∈ s.nodes) :
    ∃ s', deleteNodeTx N.id .CASCADE s = (s', .ok ()) ∧
      (∀ e ∈ s'.rels, edgeTouches N.id e = false) ∧
      (∀ p ∈ s'.relProps, ∀ e ∈ s.rels,
        edgeTouches N.id e = true → p.owner ≠ e.id) := by
  have wfN := hWF.1
  have hfind : s.nodes.find? (fun n => n.id == N.id) = some N :=
    find?_key_unique (fun n => n.id) s.nodes wfN N hNmem N.id rfl
  by_cases hNty : N.type = RELATIONSHIP_TYPE
  · have hop := deleteNodeOp_rel_eq s N .CASCADE hfind hNty
    have hstep := deleteRelNodeCase1_pruned_step s hWF N hNmem hNty []
      (fun d hd => absurd hd (List.not_mem_nil d)) (List.not_mem_nil _)
    rw [pruned_nil] at hstep
    refine ⟨pruned s [N.id], ?_, ?_, ?_⟩
    · unfold deleteNodeTx
      rw [hop, hstep]
      rfl
    · intro e he
      obtain ⟨hes, hkeep⟩ := List.mem_filter.mp (show e ∈ s.rels.filter
        (fun e => !([N.id].any (fun r => edgeTouches r e))) from he)
      cases ht : edgeTouches N.id e with
      | false => rfl
      | true =>
        exfalso
        have : [N.id].any (fun r => edgeTouches r e) = true := by simp [ht]
        rw [this] at hkeep
        simp at hkeep
    · intro p hp e0 he0 ht0 hco
      obtain ⟨hps, hkeep⟩ := List.mem_filter.mp (show p ∈ s.relProps.filter
        (fun p => !(s.rels.any (fun e => e.id == p.owner &&
          [N.id].any (fun r => edgeTouches r e)))) from hp)
      have : s.rels.any (fun e => e.id == p.owner &&
          [N.id].any (fun r => edgeTouches r e)) = true :=
        List.any_eq_true.mpr ⟨e0, he0, by
          rw [Bool.and_eq_true]
          exact ⟨by simp [hco], by simp [ht0]⟩⟩
      rw [this] at hkeep
      simp at hkeep
  · have hop := deleteNodeOp_cascade_regular s N hfind hNty
    have hS3r := cascadeS3_rels s hWF s.nodes.length N hNmem hNty
    have hS3p := cascadeS3_relProps s hWF s.nodes.length N hNmem hNty
    refine ⟨cascadeRegular N.id (s.nodes.length + 1) s, ?_, ?_, ?_⟩
    · unfold deleteNodeTx
      rw [hop]
    · intro e he
      have he' : e ∈ (cascadeS3 N.id (s.nodes.length + 1) s).rels := he
      rw [hS3r] at he'
      obtain ⟨heP, heKeep⟩ := List.mem_filter.mp he'
      cases ht : edgeTouches N.id e with
      | false => rfl
      | true =>
        exfalso
        by_cases hty : e.type = RELAY
        · have := no_surviving_relay s hWF N hNmem hNty e heP hty
          rw [ht] at this
          exact Bool.noConfusion this
        · have hed : e ∈ directEdgesOf N.id (pruned s (cascadeDeleted N.id s)) := by
            refine List.mem_filter.mpr ⟨heP, ?_⟩
            rw [Bool.and_eq_true]
            refine ⟨?_, by simp [hty]⟩
            rw [edgeTouches] at ht
            exact ht
          have : (directEdgesOf N.id (pruned s (cascadeDeleted N.id s))).any
              (fun d => d.id == e.id) = true :=
            List.any_eq_true.mpr ⟨e, hed, by simp⟩
          rw [this] at heKeep
          simp at heKeep
    · intro p hp e0 he0 ht0 hco
      have hp' : p ∈ (cascadeS3 N.id (s.nodes.length + 1) s).relProps := hp
      rw [hS3p] at hp'
      obtain ⟨hpP, hpKeep⟩ := List.mem_filter.mp hp'
      obtain ⟨hps, hpk⟩ := List.mem_filter.mp (show p ∈ s.relProps.filter
        (fun p => !(s.rels.any (fun e => e.id == p.owner &&
          (cascadeDeleted N.id s).any (fun r => edgeTouches r e)))) from hpP)
      by_cases hD0 : (cascadeDeleted N.id s).any (fun d => edgeTouches d e0) = true
      · have : s.rels.any (fun e => e.id == p.owner &&
            (cascadeDeleted N.id s).any (fun r => edgeTouches r e)) = true :=
          List.any_eq_true.mpr ⟨e0, he0, by
            rw [Bool.and_eq_true]
            exact ⟨by simp [hco], hD0⟩⟩
        rw [this] at hpk
        simp at hpk
      · have he0P : e0 ∈ (pruned s (cascadeDeleted N.id s)).rels := by
          show e0 ∈ s.rels.filter _
          refine List.mem_filter.mpr ⟨he0, ?_⟩
          simp only [Bool.not_eq_true] at hD0
          simp [hD0]
        by_cases hty : e0.type = RELAY
        · have := no_surviving_relay s hWF N hNmem hNty e0 he0P hty
          rw [ht0] at this
          exact Bool.noConfusion this
        · have he0d : e0 ∈ directEdgesOf N.id
              (pruned s (cascadeDeleted N.id s)) := by
            refine List.mem_filter.mpr ⟨he0P, ?_⟩
            rw [Bool.and_eq_true]
            refine ⟨?_, by simp [hty]⟩
            rw [edgeTouches] at ht0
            exact ht0
          have : (directEdgesOf N.id (pruned s (cascadeDeleted N.id s))).any
              (fun d => d.id == p.owner) = true :=
            List.any_eq_true.mpr ⟨e0, he0d, by simp [hco]⟩
          rw [this] at hpKeep
          simp at hpKeep

theorem foldl_congr_fn {α β : Type} (f g : β → α → β)
    (h : ∀ b a, f b a = g b a) :
    ∀ (l : List α) (b : β), l.foldl f b = l.foldl g b := by
  intro l
  induction l with
  | nil => intro b; rfl
  | cons a t ih =>
    intro b
    simp only [List.foldl_cons, h]
    exact ih (g b a)

theorem contains_of_mem {l : List String} {a : String} (h : a ∈ l) :
    l.contains a = true := by
  simpa using h

theorem filterMap_sublist_map {α β : Type} (f : α → Option β) (h : α → β)
    (hf : ∀ a b, f a = some b → b = h a) :
    ∀ l : List α, List.Sublist (l.filterMap f) (l.map h) := by
  intro l
  induction l with
  | nil => simp
  | cons a t ih =>
    rw [List.map_cons]
    cases hfa : f a with
    | none =>
      simp only [List.filterMap_cons, hfa]
      exact ih.cons (h a)
    | some b =>
      simp only [List.filterMap_cons, hfa]
      rw [hf a b hfa]
      exact ih.cons₂ (h a)

theorem jsSet_keys (l : List (String × Val)) (k : String) (v : Val) :
    (jsSet l k v).map Prod.fst =
      if l.any (fun kv => kv.1 == k) then l.map Prod.fst
      else l.map Prod.fst ++ [k] := by
  unfold jsSet
  split
  · rw [List.map_map]
    apply List.map_congr_left
    intro kv _
    simp only [Function.comp]
    by_cases hkv : (kv.1 == k) = true
    · rw [if_pos hkv]
      have hk : kv.1 = k := by simpa using hkv
      rw [← hk]
    · rw [if_neg hkv]
  · simp

theorem foldl_jsSet_keys_nodup :
    ∀ (rows : List PropRow) (acc : List (String × Val)),
      ((acc.map Prod.fst).Nodup) →
      (((rows.foldl (fun a p => jsSet a p.key p.value) acc)).map Prod.fst).Nodup := by
  intro rows
  induction rows with
  | nil => intro acc h; exact h
  | cons r t ih =>
    intro acc h
    simp only [List.foldl_cons]
    apply ih
    rw [jsSet_keys]
    split
    · exact h
    · rename_i hnone
      rw [List.nodup_append]
      refine ⟨h, List.nodup_singleton _, ?_⟩
      intro a ha hb
      have hak : a = r.key := by simpa using hb
      subst hak
      obtain ⟨kv, hkv, hkve⟩ := List.mem_map.mp ha
      exact hnone (List.any_eq_true.mpr ⟨kv, hkv, by simp [hkve]⟩)

theorem readProps_keys_nodup (table : List PropRow) (id : String) :
    ((readProps table id).map Prod.fst).Nodup := by
  unfold readProps
  exact foldl_jsSet_keys_nodup _ [] (by simp)

theorem foldl_jsSet_append :
    ∀ (ps : List (String × Val)) (acc : List (String × Val)),
      (ps.map Prod.fst).Nodup →
      (∀ kv ∈ ps, ∀ ab ∈ acc, ab.1 ≠ kv.1) →
      ps.foldl (fun a kv => jsSet a kv.1 kv.2) acc = acc ++ ps := by
  intro ps
  induction ps with
  | nil => intro acc _ _; simp
  | cons kv ps' ih =>
    intro acc hnd hdisj
    rw [List.map_cons, List.nodup_cons] at hnd
    simp only [List.foldl_cons]
    have hnotany : ¬ (acc.any (fun x => x.1 == kv.1) = true) := by
      intro hc
      obtain ⟨ab, hab, habe⟩ := List.any_eq_true.mp hc
      exact hdisj kv (List.mem_cons_self kv ps') ab hab (by simpa using habe)
    have hset : jsSet acc kv.1 kv.2 = acc ++ [(kv.1, kv.2)] := by
      unfold jsSet
      rw [if_neg hnotany]
    rw [hset, ih (acc ++ [(kv.1, kv.2)]) hnd.2 ?_]
    · rw [List.append_assoc]
      rfl
    · intro kv' hkv' ab hab
      rcases List.mem_append.mp hab with h | h
      · exact hdisj kv' (List.mem_cons_of_mem kv hkv') ab h
      · have hab' : ab = (kv.1, kv.2) := by simpa using h
        subst hab'
        intro hc
        exact hnd.1 (hc ▸ List.mem_map_of_mem Prod.fst hkv')

theorem readProps_of_rows (i : String) (ps : List (String × Val))
    (hnd : (ps.map Prod.fst).Nodup) :
    (ps.map (fun kv => PropRow.mk i kv.1 kv.2)).foldl
      (fun a p => jsSet a p.key p.value) [] = ps := by
  rw [List.foldl_map]
  exact foldl_jsSet_append ps [] hnd (by simp)

theorem filter_owner_flatten {α : Type} (f : α → String) (g : α → List PropRow) :
    ∀ (items : List α),
      (∀ it ∈ items, ∀ p ∈ g it, p.owner = f it) →
      ((items.map f).Nodup) →
      ∀ m ∈ items,
        ((items.map g).flatten).filter (fun p => p.owner == f m) = g m := by
  intro items
  induction items with
  | nil => intro _ _ m hm; exact absurd hm (List.not_mem_nil m)
  | cons a t ih =>
    intro hown hnd m hm
    rw [List.map_cons, List.nodup_cons] at hnd
    simp only [List.map_cons, List.flatten_cons, List.filter_append]
    rcases List.mem_cons.mp hm with rfl | hmt
    · have h1 : (g m).filter (fun p => p.owner == f m) = g m :=
        List.filter_eq_self.mpr (fun p hp => by
          simp [hown m (List.mem_cons_self m t) p hp])
      have h2 : ((t.map g).flatten).filter (fun p => p.owner == f m) = [] := by
        rw [List.filter_eq_nil_iff]
        intro p hp hc
        obtain ⟨blk, hblk, hpblk⟩ := List.mem_flatten.mp hp
        obtain ⟨it, hit, hgit⟩ := List.mem_map.mp hblk
        have hpo : p.owner = f it := hown it (List.mem_cons_of_mem _ hit)
          p (hgit ▸ hpblk)
        have : f it = f m := by rw [← hpo]; simpa using hc
        exact hnd.1 (this ▸ List.mem_map_of_mem f hit)
      rw [h1, h2, List.append_nil]
    · have h1 : (g a).filter (fun p => p.owner == f m) = [] := by
        rw [List.filter_eq_nil_iff]
        intro p hp hc
        have hpo : p.owner = f a := hown a (List.mem_cons_self a t) p hp
        have : f a = f m := by rw [← hpo]; simpa using hc
        exact hnd.1 (this ▸ List.mem_map_of_mem f hmt)
      rw [h1, List.nil_append]
      exact ih (fun it hit => hown it (List.mem_cons_of_mem a hit)) hnd.2 m hmt

theorem readProps_flatten {α : Type} (f : α → String)
    (props : α → List (String × Val)) (items : List α)
    (hnd : (items.map f).Nodup) (m : α) (hm : m ∈ items)
    (hpnd : ((props m).map Prod.fst).Nodup) :
    readProps ((items.map (fun it => (props it).map (fun kv =>
      PropRow.mk (f it) kv.1 kv.2))).flatten) (f m) = props m := by
  unfold readProps
  rw [filter_owner_flatten f
    (fun it => (props it).map (fun kv => PropRow.mk (f it) kv.1 kv.2)) items
    (fun it _ p hp => by
      obtain ⟨kv, _, hkv⟩ := List.mem_map.mp hp
      rw [← hkv])
    hnd m hm]
  exact readProps_of_rows (f m) (props m) hpnd

/-- One step of the node-import loop in REPLACE mode (the MERGE branch is
disabled, every item goes through `addNode`). -/
def importNodeStepR (now : String) (fresh : Nat → String)
    (acc : Store × List String × List String × Nat) (n : ImpNode) :
    Store × List String × List String × Nat :=
  match addNodeOp ⟨n.id, n.type, n.label, n.properties, none⟩
      (fresh acc.2.2.2) now acc.1 with
  | (st', .ok newId) => (st', acc.2.1 ++ [newId], acc.2.2.1, acc.2.2.2 + 1)
  | (st', .error e) =>
    (st', acc.2.1, acc.2.2.1 ++ ["Failed to import node " ++
      (if jsTruthy n.id then n.id.getD "" else "unknown") ++ ": " ++
      errMessage e], acc.2.2.2 + 1)

theorem importNodesPhase_replace_eq (now : String) (fresh : Nat → String)
    (items : List ImpNode) (s : Store) :
    importNodesPhase .REPLACE now fresh items s =
      items.foldl (importNodeStepR now fresh) (s, [], [], 0) := by
  unfold importNodesPhase
  rw [foldl_congr_fn _ (importNodeStepR now fresh) ?_]
  intro acc n
  unfold importNodeStepR
  simp

/-- One step of the edge-import loop in REPLACE mode, with the error list
threaded (the MERGE branch is disabled, every accepted item goes through
`addEdge`). -/
def importEdgeStepR (now : String) (fresh : Nat → String)
    (importedIds : List String)
    (acc : Store × List String × List String × Nat) (e : ImpEdge) :
    Store × List String × List String × Nat :=
  if !(edgeEndpointsOk importedIds e) then
    (acc.1, acc.2.1, acc.2.2.1 ++ [edgeSkipMsg importedIds e], acc.2.2.2)
  else
    match addEdgeOp ⟨e.id, e.source_id, e.target_id, e.type, e.properties⟩
        (fresh acc.2.2.2) now acc.1 with
    | (st', .ok newId) => (st', acc.2.1 ++ [newId], acc.2.2.1, acc.2.2.2 + 1)
    | (st', .error err) => (st', acc.2.1, acc.2.2.1 ++
        ["Failed to import edge " ++
          (if jsTruthy e.id then e.id.getD "" else "unknown") ++ ": " ++
          errMessage err], acc.2.2.2 + 1)

theorem importEdgesPhase_replace_eq (now : String) (fresh : Nat → String)
    (importedIds : List String) (items : List ImpEdge)
    (start : Store × List String × List String × Nat) :
    importEdgesPhase .REPLACE now fresh importedIds items start =
      items.foldl (importEdgeStepR now fresh importedIds) start := by
  unfold importEdgesPhase
  rw [foldl_congr_fn _ (importEdgeStepR now fresh importedIds) ?_]
  intro acc e
  unfold importEdgeStep importEdgeStepCore importEdgeStepR
  by_cases hok : edgeEndpointsOk importedIds e = true
  · rcases haddr : addEdgeOp ⟨e.id, e.source_id, e.target_id, e.type,
        e.properties⟩ (fresh acc.2.2.2) now acc.1 with ⟨st', res⟩
    cases res <;> simp [hok, haddr]
  · have hok' : edgeEndpointsOk importedIds e = false := by
      cases h : edgeEndpointsOk importedIds e
      · rfl
      · exact absurd h hok
    simp [hok']

theorem demoteLabel_map_triple (label id now : String) (l : List NodeRow) :
    (demoteLabel label id now l).map (fun n => (n.id, n.type, n.label)) =
      l.map (fun n => (n.id, n.type, n.label)) := by
  unfold demoteLabel
  rw [List.map_map]
  apply List.map_congr_left
  intro n _
  simp only [Function.comp]
  split <;> rfl

theorem addNodeOp_fresh (node : NodeInput) (freshId now : String) (s : Store)
    (i : String) (hid : node.id = some i) (hine : i ≠ "")
    (hfresh : ∀ n ∈ s.nodes, n.id ≠ i) :
    ∃ nodes1 : List NodeRow,
      addNodeOp node freshId now s =
        ({ nodes := nodes1 ++ [NodeRow.mk i node.type node.label
             (match node.is_independent with
              | some b => b
              | none => !(s.nodes.any (fun n => n.label == node.label))) now now]
           nodeProps := s.nodeProps ++ ((node.properties.getD []).map
             (fun kv => PropRow.mk i kv.1 kv.2))
           rels := s.rels
           relProps := s.relProps }, .ok i) ∧
      nodes1.map (fun n => (n.id, n.type, n.label)) =
        s.nodes.map (fun n => (n.id, n.type, n.label)) := by
  have hres : resolveId node.id freshId = i := by
    rw [hid]
    unfold resolveId
    simp [hine]
  have hany : ∀ l : List NodeRow,
      l.map (fun n => n.id) = s.nodes.map (fun n => n.id) →
      l.any (fun n => n.id == i) = false := by
    intro l hl
    apply any_eq_false_of_not
    rintro ⟨n, hn, hni⟩
    have : n.id ∈ s.nodes.map (fun n => n.id) := by
      rw [← hl]
      exact List.mem_map_of_mem _ hn
    obtain ⟨m, hm, hmi⟩ := List.mem_map.mp this
    exact hfresh m hm (by rw [hmi]; simpa using hni)
  by_cases hle : s.nodes.any (fun n => n.label == node.label) = true
  · refine ⟨demoteLabel node.label i now s.nodes, ?_, demoteLabel_map_triple
      node.label i now s.nodes⟩
    have hu : (demoteLabel node.label i now s.nodes).any
        (fun n => n.id == i) = false :=
      hany _ (demoteLabel_map_id node.label i now s.nodes)
    unfold addNodeOp
    rw [hres]
    simp [hle, hu]
  · refine ⟨s.nodes, ?_, rfl⟩
    have hu : s.nodes.any (fun n => n.id == i) = false := hany _ rfl
    unfold addNodeOp
    rw [hres]
    simp [hle, hu]

theorem addEdgeOp_fresh (edge : EdgeInput) (freshId now : String) (s : Store)
    (i : String) (hid : edge.id = some i) (hine : i ≠ "")
    (hfresh : ∀ r ∈ s.rels, r.id ≠ i)
    (hsrc : jsTruthy edge.source_id = true →
      s.nodes.any (fun n => some n.id == edge.source_id) = true)
    (htgt : jsTruthy edge.target_id = true →
      s.nodes.any (fun n => some n.id == edge.target_id) = true) :
    addEdgeOp edge freshId now s =
      ({ s with
          rels := s.rels ++ [EdgeRow.mk i edge.source_id edge.target_id
            edge.type now]
          relProps := s.relProps ++ ((edge.properties.getD []).map
            (fun kv => PropRow.mk i kv.1 kv.2)) }, .ok i) := by
  have hid' : (match edge.id with
      | some j => if j = "" then freshId else j
      | none => freshId) = i := by
    rw [hid]
    simp [hine]
  have hc1 : (jsTruthy edge.source_id &&
      !(s.nodes.any (fun n => some n.id == edge.source_id))) = false := by
    cases hj : jsTruthy edge.source_id
    · rfl
    · rw [hsrc hj]
      rfl
  have hc2 : (jsTruthy edge.target_id &&
      !(s.nodes.any (fun n => some n.id == edge.target_id))) = false := by
    cases hj : jsTruthy edge.target_id
    · rfl
    · rw [htgt hj]
      rfl
  have hc3 : s.rels.any (fun e => e.id == i) = false := by
    apply any_eq_false_of_not
    rintro ⟨r, hr, hri⟩
    exact hfresh r hr (by simpa using hri)
  unfold addEdgeOp
  rw [hid']
  simp [hc1, hc2, hc3]

theorem importNodesFoldR (now : String) (fresh : Nat → String) :
    ∀ (items : List ImpNode),
      (∀ it ∈ items, ∃ i, it.id = some i ∧ i ≠ "") →
      (items.map (fun it => it.id.getD "")).Nodup →
      ∀ (st : Store) (ids errs : List String) (k : Nat),
        (∀ it ∈ items, ∀ n ∈ st.nodes, n.id ≠ it.id.getD "") →
        ((items.foldl (importNodeStepR now fresh) (st, ids, errs, k)).1.nodes.map
            (fun n => (n.id, n.type, n.label)) =
          st.nodes.map (fun n => (n.id, n.type, n.label)) ++
            items.map (fun it => (it.id.getD "", it.type, it.label))) ∧
        (items.foldl (importNodeStepR now fresh) (st, ids, errs, k)).1.nodeProps =
          st.nodeProps ++ (items.map (fun it =>
            ((it.properties.getD []).map (fun kv =>
              PropRow.mk (it.id.getD "") kv.1 kv.2)))).flatten ∧
        (items.foldl (importNodeStepR now fresh) (st, ids, errs, k)).1.rels =
          st.rels ∧
        (items.foldl (importNodeStepR now fresh) (st, ids, errs, k)).1.relProps =
          st.relProps ∧
        (items.foldl (importNodeStepR now fresh) (st, ids, errs, k)).2.1 =
          ids ++ items.map (fun it => it.id.getD "") ∧
        (items.foldl (importNodeStepR now fresh) (st, ids, errs, k)).2.2.1 =
          errs := by
  intro items
  induction items with
  | nil =>
    intro _ _ st ids errs k _
    simp
  | cons it items' ih =>
    intro hids hnd st ids errs k hfresh
    obtain ⟨i, hit, hine⟩ := hids it (List.mem_cons_self it items')
    have hgetD : it.id.getD "" = i := by rw [hit]; rfl
    rw [List.map_cons, hgetD, List.nodup_cons] at hnd
    obtain ⟨nodes1, haddEq, htriple⟩ := addNodeOp_fresh
      ⟨it.id, it.type, it.label, it.properties, none⟩ (fresh k) now st i hit hine
      (fun n hn => hgetD ▸ hfresh it (List.mem_cons_self it items') n hn)
    have hids1 : nodes1.map (fun n => n.id) = st.nodes.map (fun n => n.id) := by
      have h := congrArg (List.map
        (fun t : String × String × String => t.1)) htriple
      simpa [List.map_map, Function.comp] using h
    have hstep : importNodeStepR now fresh (st, ids, errs, k) it =
        ({ nodes := nodes1 ++ [NodeRow.mk i it.type it.label
             (!(st.nodes.any (fun n => n.label == it.label))) now now]
           nodeProps := st.nodeProps ++ ((it.properties.getD []).map
             (fun kv => PropRow.mk i kv.1 kv.2))
           rels := st.rels
           relProps := st.relProps }, ids ++ [i], errs, k + 1) := by
      unfold importNodeStepR
      simp only [haddEq]
    simp only [List.foldl_cons, hstep]
    have hfresh' : ∀ it' ∈ items',
        ∀ n ∈ nodes1 ++ [NodeRow.mk i it.type it.label
             (!(st.nodes.any (fun n => n.label == it.label))) now now],
        n.id ≠ it'.id.getD "" := by
      intro it' hit' n hn
      rcases List.mem_append.mp hn with h | h
      · have : n.id ∈ st.nodes.map (fun n => n.id) := by
          rw [← hids1]
          exact List.mem_map_of_mem _ h
        obtain ⟨m, hm, hmi⟩ := List.mem_map.mp this
        exact hmi ▸ hfresh it' (List.mem_cons_of_mem it hit') m hm
      · have hni : n.id = i := by
          have : n = NodeRow.mk i it.type it.label
              (!(st.nodes.any (fun n => n.label == it.label))) now now := by
            simpa using h
          rw [this]
        rw [hni]
        intro hc
        exact hnd.1 (hc ▸ List.mem_map_of_mem (fun x => x.id.getD "") hit')
    obtain ⟨c1, c2, c3, c4, c5, c6⟩ := ih
      (fun x hx => hids x (List.mem_cons_of_mem it hx)) hnd.2
      ({ nodes := nodes1 ++ [NodeRow.mk i it.type it.label
           (!(st.nodes.any (fun n => n.label == it.label))) now now]
         nodeProps := st.nodeProps ++ ((it.properties.getD []).map
           (fun kv => PropRow.mk i kv.1 kv.2))
         rels := st.rels
         relProps := st.relProps })
      (ids ++ [i]) errs (k + 1) hfresh'
    refine ⟨?_, ?_, ?_, ?_, ?_, ?_⟩
    · rw [c1]
      show (nodes1 ++ [NodeRow.mk i it.type it.label
        (!(st.nodes.any (fun n => n.label == it.label))) now now]).map
          (fun n => (n.id, n.type, n.label)) ++ _ = _
      rw [List.map_append, htriple, List.append_assoc]
      simp [hgetD]
    · rw [c2]
      show (st.nodeProps ++ _) ++ _ = _
      rw [List.append_assoc]
      simp [hgetD]
    · exact c3
    · exact c4
    · rw [c5, List.append_assoc]
      simp [hgetD]
    · exact c6

theorem importEdgesFoldR (now : String) (fresh : Nat → String)
    (importedIds : List String) :
    ∀ (items : List ImpEdge),
      (∀ it ∈ items, edgeEndpointsOk importedIds it = true) →
      (∀ it ∈ items, ∃ i, it.id = some i ∧ i ≠ "") →
      (items.map (fun it => it.id.getD "")).Nodup →
      ∀ (st : Store) (eids errs : List String) (k : Nat),
        (∀ it ∈ items, ∀ r ∈ st.rels, r.id ≠ it.id.getD "") →
        (∀ it ∈ items, jsTruthy it.source_id = true →
          st.nodes.any (fun n => some n.id == it.source_id) = true) →
        (∀ it ∈ items, jsTruthy it.target_id = true →
          st.nodes.any (fun n => some n.id == it.target_id) = true) →
        (items.foldl (importEdgeStepR now fresh importedIds)
          (st, eids, errs, k)).1.nodes = st.nodes ∧
        (items.foldl (importEdgeStepR now fresh importedIds)
          (st, eids, errs, k)).1.nodeProps = st.nodeProps ∧
        (items.foldl (importEdgeStepR now fresh importedIds)
          (st, eids, errs, k)).1.rels = st.rels ++ items.map (fun it =>
            EdgeRow.mk (it.id.getD "") it.source_id it.target_id it.type now) ∧
        (items.foldl (importEdgeStepR now fresh importedIds)
          (st, eids, errs, k)).1.relProps = st.relProps ++
            (items.map (fun it => ((it.properties.getD []).map (fun kv =>
              PropRow.mk (it.id.getD "") kv.1 kv.2)))).flatten := by
  intro items
  induction items with
  | nil =>
    intro _ _ _ st eids errs k _ _ _
    simp
  | cons it items' ih =>
    intro hoks hids hnd st eids errs k hfresh hsrcs htgts
    obtain ⟨i, hit, hine⟩ := hids it (List.mem_cons_self it items')
    have hgetD : it.id.getD "" = i := by rw [hit]; rfl
    rw [List.map_cons, hgetD, List.nodup_cons] at hnd
    have hok := hoks it (List.mem_cons_self it items')
    have haddEq := addEdgeOp_fresh
      ⟨it.id, it.source_id, it.target_id, it.type, it.properties⟩
      (fresh k) now st i hit hine
      (fun r hr => hgetD ▸ hfresh it (List.mem_cons_self it items') r hr)
      (hsrcs it (List.mem_cons_self it items'))
      (htgts it (List.mem_cons_self it items'))
    have hstep : importEdgeStepR now fresh importedIds (st, eids, errs, k) it =
        ({ nodes := st.nodes
           nodeProps := st.nodeProps
           rels := st.rels ++ [EdgeRow.mk i it.source_id it.target_id
             it.type now]
           relProps := st.relProps ++ ((it.properties.getD []).map
             (fun kv => PropRow.mk i kv.1 kv.2)) }, eids ++ [i], errs, k + 1) := by
      unfold importEdgeStepR
      simp [hok, haddEq]
    simp only [List.foldl_cons, hstep]
    have hfresh' : ∀ it' ∈ items',
        ∀ r ∈ st.rels ++ [EdgeRow.mk i it.source_id it.target_id it.type now],
        r.id ≠ it'.id.getD "" := by
      intro it' hit' r hr
      rcases List.mem_append.mp hr with h | h
      · exact hfresh it' (List.mem_cons_of_mem it hit') r h
      · have hri : r.id = i := by
          have hre : r = EdgeRow.mk i it.source_id it.target_id it.type now := by
            simpa using h
          rw [hre]
        rw [hri]
        intro hc
        exact hnd.1 (hc ▸ List.mem_map_of_mem (fun x => x.id.getD "") hit')
    obtain ⟨c1, c2, c3, c4⟩ := ih
      (fun x hx => hoks x (List.mem_cons_of_mem it hx))
      (fun x hx => hids x (List.mem_cons_of_mem it hx)) hnd.2
      ({ nodes := st.nodes
         nodeProps := st.nodeProps
         rels := st.rels ++ [EdgeRow.mk i it.source_id it.target_id it.type now]
         relProps := st.relProps ++ ((it.properties.getD []).map
           (fun kv => PropRow.mk i kv.1 kv.2)) })
      (eids ++ [i]) errs (k + 1) hfresh'
      (fun x hx => hsrcs x (List.mem_cons_of_mem it hx))
      (fun x hx => htgts x (List.mem_cons_of_mem it hx))
    refine ⟨c1, c2, ?_, ?_⟩
    · rw [c3]
      show (st.rels ++ _) ++ _ = _
      rw [List.append_assoc]
      simp [hgetD]
    · rw [c4]
      show (st.relProps ++ _) ++ _ = _
      rw [List.append_assoc]
      simp [hgetD]

theorem synthFold_fst_cases (relId : String) :
    ∀ (relays : List EdgeRow) (init : Option String × Option String),
      ((relays.foldl (fun acc e =>
          if e.source_id == some relId then (acc.1, e.target_id)
          else if e.target_id == some relId then (e.source_id, acc.2)
          else acc) init).1 = init.1 ∨
        ∃ e ∈ relays, (relays.foldl (fun acc e =>
          if e.source_id == some relId then (acc.1, e.target_id)
          else if e.target_id == some relId then (e.source_id, acc.2)
          else acc) init).1 = e.source_id) := by
  intro relays
  induction relays with
  | nil => intro init; left; rfl
  | cons a t ih =>
    intro init
    simp only [List.foldl_cons]
    rcases ih (if a.source_id == some relId then (init.1, a.target_id)
        else if a.target_id == some relId then (a.source_id, init.2)
        else init) with h | ⟨e, he, heq⟩
    · by_cases h1 : (a.source_id == some relId) = true
      · left
        rw [h]
        simp [h1]
      · by_cases h2 : (a.target_id == some relId) = true
        · right
          refine ⟨a, List.mem_cons_self a t, ?_⟩
          rw [h]
          simp [h1, h2]
        · left
          rw [h]
          simp [h1, h2]
    · right
      exact ⟨e, List.mem_cons_of_mem a he, heq⟩

theorem synthFold_snd_cases (relId : String) :
    ∀ (relays : List EdgeRow) (init : Option String × Option String),
      ((relays.foldl (fun acc e =>
          if e.source_id == some relId then (acc.1, e.target_id)
          else if e.target_id == some relId then (e.source_id, acc.2)
          else acc) init).2 = init.2 ∨
        ∃ e ∈ relays, (relays.foldl (fun acc e =>
          if e.source_id == some relId then (acc.1, e.target_id)
          else if e.target_id == some relId then (e.source_id, acc.2)
          else acc) init).2 = e.target_id) := by
  intro relays
  induction relays with
  | nil => intro init; left; rfl
  | cons a t ih =>
    intro init
    simp only [List.foldl_cons]
    rcases ih (if a.source_id == some relId then (init.1, a.target_id)
        else if a.target_id == some relId then (a.source_id, init.2)
        else init) with h | ⟨e, he, heq⟩
    · by_cases h1 : (a.source_id == some relId) = true
      · right
        refine ⟨a, List.mem_cons_self a t, ?_⟩
        rw [h]
        simp [h1]
      · by_cases h2 : (a.target_id == some relId) = true
        · left
          rw [h]
          simp [h1, h2]
        · left
          rw [h]
          simp [h1, h2]
    · right
      exact ⟨e, List.mem_cons_of_mem a he, heq⟩

theorem getEdges_mem (s : Store) (e : EdgeView) (he : e ∈ getEdges s) :
    (∃ rn ∈ s.nodes, ∃ a b, (rn.type == RELATIONSHIP_TYPE) = true ∧
      relaysTouching s rn.id = [a, b] ∧
      e = { id := rn.id
            source_id := (synthDirections rn.id [a, b]).1
            target_id := (synthDirections rn.id [a, b]).2
            type := rn.label
            created_at := rn.created_at
            properties := []
            isStructured := true
            relayEdgeIds := some (a.id, b.id) }) ∨
    (∃ row ∈ s.rels, (row.type != RELAY) = true ∧
      e = { id := row.id
            source_id := row.source_id
            target_id := row.target_id
            type := row.type
            created_at := row.created_at
            properties := readProps s.relProps row.id
            isStructured := false
            relayEdgeIds := none }) := by
  unfold getEdges at he
  rcases List.mem_append.mp he with h | h
  · left
    obtain ⟨pr, hpr, hfst⟩ := List.mem_map.mp h
    obtain ⟨rn, hrn, hsome⟩ := List.mem_filterMap.mp hpr
    obtain ⟨hrn1, hrn2⟩ := List.mem_filter.mp hrn
    rcases hrel : relaysTouching s rn.id with _ | ⟨a, _ | ⟨b, _ | ⟨c, rest⟩⟩⟩ <;>
      rw [hrel] at hsome
    · simp at hsome
    · simp at hsome
    · refine ⟨rn, hrn1, a, b, hrn2, hrel, ?_⟩
      simp only [Option.some.injEq] at hsome
      rw [← hfst, ← hsome]
    · simp at hsome
  · right
    obtain ⟨row, hrow, heq⟩ := List.mem_map.mp h
    obtain ⟨hrow1, hrow2⟩ := List.mem_filter.mp hrow
    rw [Bool.and_eq_true] at hrow2
    exact ⟨row, hrow1, hrow2.2, heq.symm⟩

theorem getEdges_facts (s : Store) (hWF : WF s) :
    ∀ e ∈ getEdges s,
      e.id ≠ "" ∧ e.type ≠ RELAY ∧
      ((e.properties).map Prod.fst).Nodup ∧
      (jsTruthy e.source_id = true → ∃ n ∈ s.nodes, some n.id = e.source_id) ∧
      (jsTruthy e.target_id = true → ∃ n ∈ s.nodes, some n.id = e.target_id) := by
  obtain ⟨wfN, wfE, wfNE, wfNid, wfEid, wfEnd, wfRel, wfAtt⟩ := hWF
  intro e he
  rcases getEdges_mem s e he with
    ⟨rn, hrn, a, b, hrnty, hrel, heq⟩ | ⟨row, hrow, hrowty, heq⟩
  · have hrnty' : rn.type = RELATIONSHIP_TYPE := by simpa using hrnty
    obtain ⟨_, _, _, _, hlab⟩ := wfRel rn hrn hrnty'
    have hsub : ∀ x ∈ [a, b], x ∈ s.rels := by
      intro x hx
      have : x ∈ relaysTouching s rn.id := hrel ▸ hx
      exact (List.mem_filter.mp this).1
    refine ⟨by rw [heq]; exact wfNid rn hrn, by rw [heq]; exact hlab, ?_, ?_, ?_⟩
    · rw [heq]
      simp
    · intro hts
      rw [heq] at hts ⊢
      rcases synthFold_fst_cases rn.id [a, b] (some "", some "") with h | ⟨x, hx, hxe⟩
      · rw [show (synthDirections rn.id [a, b]).1 =
            ((List.foldl _ (some "", some "") [a, b]).1 : Option String) from rfl,
          h] at hts
        simp [jsTruthy] at hts
      · have hxs : (synthDirections rn.id [a, b]).1 = x.source_id := hxe
        rw [hxs] at hts ⊢
        cases hsrc : x.source_id with
        | none => rw [hsrc] at hts; simp [jsTruthy] at hts
        | some v =>
          obtain ⟨n, hn, hni⟩ := (wfEnd x (hsub x hx)).1 v (by simp [hsrc])
          refine ⟨n, hn, ?_⟩
          show some n.id = some v
          rw [hni]
    · intro hts
      rw [heq] at hts ⊢
      rcases synthFold_snd_cases rn.id [a, b] (some "", some "") with h | ⟨x, hx, hxe⟩
      · rw [show (synthDirections rn.id [a, b]).2 =
            ((List.foldl _ (some "", some "") [a, b]).2 : Option String) from rfl,
          h] at hts
        simp [jsTruthy] at hts
      · have hxs : (synthDirections rn.id [a, b]).2 = x.target_id := hxe
        rw [hxs] at hts ⊢
        cases htgt : x.target_id with
        | none => rw [htgt] at hts; simp [jsTruthy] at hts
        | some v =>
          obtain ⟨n, hn, hni⟩ := (wfEnd x (hsub x hx)).2 v (by simp [htgt])
          refine ⟨n, hn, ?_⟩
          show some n.id = some v
          rw [hni]
  · refine ⟨by rw [heq]; exact wfEid row hrow,
      by rw [heq]; simpa using hrowty,
      by rw [heq]; exact readProps_keys_nodup s.relProps row.id, ?_, ?_⟩
    · intro hts
      rw [heq] at hts ⊢
      cases hsrc : row.source_id with
      | none => rw [hsrc] at hts; simp [jsTruthy] at hts
      | some v =>
        obtain ⟨n, hn, hni⟩ := (wfEnd row hrow).1 v (by simp [hsrc])
        refine ⟨n, hn, ?_⟩
        show some n.id = some v
        rw [hni]
    · intro hts
      rw [heq] at hts ⊢
      cases htgt : row.target_id with
      | none => rw [htgt] at hts; simp [jsTruthy] at hts
      | some v =>
        obtain ⟨n, hn, hni⟩ := (wfEnd row hrow).2 v (by simp [htgt])
        refine ⟨n, hn, ?_⟩
        show some n.id = some v
        rw [hni]

theorem getNodes_map_id (s : Store) :
    (getNodes s).map (fun v => v.id) = s.nodes.map (fun n => n.id) := by
  unfold getNodes
  rw [List.map_map]
  rfl

theorem getNodes_type_ne (s : Store) : ∀ v ∈ getNodes s, v.type ≠ "" := by
  intro v hv
  obtain ⟨n, _, hveq⟩ := List.mem_map.mp hv
  rw [← hveq]
  show (if n.type = "" then "node" else n.type) ≠ ""
  split
  · intro hc
    exact absurd hc (by decide)
  · rename_i h
    exact h

theorem getNodes_props_nodup (s : Store) :
    ∀ v ∈ getNodes s, ((v.properties).map Prod.fst).Nodup := by
  intro v hv
  obtain ⟨n, _, hveq⟩ := List.mem_map.mp hv
  rw [← hveq]
  exact readProps_keys_nodup s.nodeProps n.id

theorem nodup_map_fst_id_filterMap {γ : Type} (L : List NodeRow)
    (F : NodeRow → Option (EdgeView × γ))
    (hF : ∀ rn pr, F rn = some pr → pr.1.id = rn.id)
    (hnd : (L.map (fun n => n.id)).Nodup) :
    (List.map ((fun e : EdgeView => e.id) ∘ Prod.fst) (L.filterMap F)).Nodup := by
  apply List.Nodup.sublist ?_ hnd
  rw [List.map_filterMap]
  apply filterMap_sublist_map
  intro a b hb
  cases hFa : F a with
  | none =>
    rw [hFa] at hb
    exact absurd hb (by simp)
  | some pr =>
    rw [hFa] at hb
    have hb' : pr.1.id = b := Option.some_injective _ hb
    rw [← hb']
    exact hF a pr hFa

theorem nodup_map_comp_id (L : List EdgeRow) (v : EdgeRow → EdgeView)
    (hv : ∀ row, (v row).id = row.id)
    (hnd : (L.map (fun e => e.id)).Nodup) :
    (L.map ((fun e : EdgeView => e.id) ∘ v)).Nodup := by
  have h : L.map ((fun e : EdgeView => e.id) ∘ v) = L.map (fun e => e.id) :=
    List.map_congr_left (fun a _ => hv a)
  rw [h]
  exact hnd

theorem getEdges_ids_nodup (s : Store) (hWF : WF s) :
    ((getEdges s).map (fun e => e.id)).Nodup := by
  obtain ⟨wfN, wfE, wfNE, _, _, _, _, _⟩ := hWF
  unfold getEdges
  rw [List.map_append, List.nodup_append, List.map_map, List.map_map]
  have hF : ∀ (rn : NodeRow) (pr : EdgeView × List String),
      (match relaysTouching s rn.id with
        | [a, b] =>
          let dirs := synthDirections rn.id [a, b]
          some ({ id := rn.id
                  source_id := dirs.1
                  target_id := dirs.2
                  type := rn.label
                  created_at := rn.created_at
                  properties := []
                  isStructured := true
                  relayEdgeIds := some (a.id, b.id) }, [a.id, b.id])
        | _ => none) = some pr → pr.1.id = rn.id := by
    intro rn pr hpr
    rcases hrel : relaysTouching s rn.id with _ | ⟨a, _ | ⟨c, _ | ⟨d, rest⟩⟩⟩ <;>
      rw [hrel] at hpr <;> simp at hpr
    rw [← hpr]
  refine ⟨?_, ?_, ?_⟩
  · exact nodup_map_fst_id_filterMap _ _ hF
      (List.Nodup.sublist ((List.filter_sublist s.nodes).map _) wfN)
  · exact nodup_map_comp_id _ _ (fun row => rfl)
      (List.Nodup.sublist ((List.filter_sublist s.rels).map _) wfE)
  · intro x hxA hxB
    obtain ⟨pr, hpr, hpre⟩ := List.mem_map.mp hxA
    obtain ⟨rn, hrn, hFrn⟩ := List.mem_filterMap.mp hpr
    obtain ⟨row, hrow, hre⟩ := List.mem_map.mp hxB
    obtain ⟨hrow1, _⟩ := List.mem_filter.mp hrow
    refine wfNE rn (List.mem_filter.mp hrn).1 row hrow1 ?_
    have h1 : pr.1.id = x := hpre
    have h2 : row.id = x := hre
    rw [← hF rn pr hFrn, h1, h2]

theorem filterMap_const_none {α β : Type} (L : List α) :
    L.filterMap (fun _ => (none : Option β)) = [] := by
  apply List.filterMap_eq_nil_iff.mpr
  intro a _
  rfl

theorem getEdges_no_relays (t : Store)
    (h : ∀ e ∈ t.rels, (e.type == RELAY) = false) :
    getEdges t = t.rels.map (fun e =>
      { id := e.id
        source_id := e.source_id
        target_id := e.target_id
        type := e.type
        created_at := e.created_at
        properties := readProps t.relProps e.id
        isStructured := false
        relayEdgeIds := none }) := by
  have hrel : ∀ x, relaysTouching t x = [] := by
    intro x
    unfold relaysTouching
    rw [List.filter_eq_nil_iff]
    intro e he hc
    rw [Bool.and_eq_true] at hc
    rw [h e he] at hc
    exact Bool.false_ne_true hc.2
  unfold getEdges
  simp only [hrel]
  rw [filterMap_const_none]
  rw [List.filter_eq_self.mpr ?_]
  · simp
  · intro e he
    have hne := h e he
    simp only [List.map_nil, List.flatten_nil]
    rw [Bool.and_eq_true]
    constructor
    · simp
    · simp [bne_iff_ne]
      simp only [beq_eq_false_iff_ne, ne_eq] at hne
      exact hne

theorem nodeView_factor (t : Store) :
    nodeView t = (t.nodes.map (fun n => (n.id, n.type, n.label))).map
      (fun tr => (tr.1, if tr.2.1 = "" then "node" else tr.2.1, tr.2.2,
        readProps t.nodeProps tr.1)) := by
  unfold nodeView getNodes
  rw [List.map_map, List.map_map]
  rfl

/-- Claim C9: round-trip.  For every well-formed store, exporting the full
graph (`exportToJson`) and importing the payload in REPLACE mode into an empty
store reproduces the same node set (ids, types, labels and properties) and the
same logical edge set (ids, endpoints, types and properties, structured edges
included), as observed through `getNodes` / `getEdges`. -/
theorem export_import_roundtrip (s : Store) (hWF : WF s) (now : String)
    (fresh : Nat → String) :
    nodeView (importFromJson (exportData s) .REPLACE now fresh emptyStore).1 =
      nodeView s ∧
    edgeView (importFromJson (exportData s) .REPLACE now fresh emptyStore).1 =
      edgeView s := by
  have hWF' := hWF
  obtain ⟨wfN, wfE, wfNE, wfNid, wfEid, wfEnd, wfRel, wfAtt⟩ := hWF
  have hNidsEq : ((exportData s).nodes).map (fun it => it.id.getD "") =
      s.nodes.map (fun n => n.id) := by
    show (((getNodes s).map _).map _) = _
    rw [List.map_map]
    unfold getNodes
    rw [List.map_map]
    rfl
  have hNid : ∀ it ∈ (exportData s).nodes, ∃ i, it.id = some i ∧ i ≠ "" := by
    intro it hit
    obtain ⟨v, hv, hveq⟩ := List.mem_map.mp hit
    obtain ⟨n, hn, hne⟩ := List.mem_map.mp hv
    refine ⟨v.id, by rw [← hveq], ?_⟩
    rw [← hne]
    show n.id ≠ ""
    exact wfNid n hn
  have hNnd : (((exportData s).nodes).map (fun it => it.id.getD "")).Nodup := by
    rw [hNidsEq]
    exact wfN
  obtain ⟨n1, n2, n3, n4, n5, n6⟩ := importNodesFoldR now fresh
    (exportData s).nodes hNid hNnd emptyStore [] [] 0
    (fun it _ n hn => absurd hn (List.not_mem_nil n))
  have hIds : (((exportData s).nodes).foldl (importNodeStepR now fresh)
      (emptyStore, [], [], 0)).2.1 = s.nodes.map (fun n => n.id) := by
    rw [n5, hNidsEq]
    rfl
  have hNPids : (((exportData s).nodes).foldl (importNodeStepR now fresh)
      (emptyStore, [], [], 0)).1.nodes.map (fun n => n.id) =
      s.nodes.map (fun n => n.id) := by
    have h := congrArg (List.map (fun t : String × String × String => t.1)) n1
    simp only [List.map_append, List.map_map, Function.comp_def] at h
    rw [hNidsEq] at h
    simpa [emptyStore] using h
  have hEid : ∀ it ∈ (exportData s).edges, ∃ i, it.id = some i ∧ i ≠ "" := by
    intro it hit
    obtain ⟨e, he, heq⟩ := List.mem_map.mp hit
    exact ⟨e.id, by rw [← heq], (getEdges_facts s hWF' e he).1⟩
  have hEidsEq : ((exportData s).edges).map (fun it => it.id.getD "") =
      (getEdges s).map (fun e => e.id) := by
    show (((getEdges s).map _).map _) = _
    rw [List.map_map]
    rfl
  have hEnd : (((exportData s).edges).map (fun it => it.id.getD "")).Nodup := by
    rw [hEidsEq]
    exact getEdges_ids_nodup s hWF'
  have hEok : ∀ it ∈ (exportData s).edges,
      edgeEndpointsOk ((((exportData s).nodes).foldl (importNodeStepR now fresh)
        (emptyStore, [], [], 0)).2.1) it = true := by
    intro it hit
    obtain ⟨e, he, heq⟩ := List.mem_map.mp hit
    obtain ⟨_, _, _, hsrc, htgt⟩ := getEdges_facts s hWF' e he
    unfold edgeEndpointsOk
    rw [Bool.and_eq_true]
    constructor
    · split
      · rename_i hj
        have hseq : it.source_id = e.source_id := by rw [← heq]
        rw [hseq] at hj
        obtain ⟨nn, hn, hni⟩ := hsrc hj
        rw [hIds, hseq, ← hni]
        show (s.nodes.map (fun n => n.id)).contains nn.id = true
        exact contains_of_mem (List.mem_map_of_mem _ hn)
      · rfl
    · split
      · rename_i hj
        have hteq : it.target_id = e.target_id := by rw [← heq]
        rw [hteq] at hj
        obtain ⟨nn, hn, hni⟩ := htgt hj
        rw [hIds, hteq, ← hni]
        show (s.nodes.map (fun n => n.id)).contains nn.id = true
        exact contains_of_mem (List.mem_map_of_mem _ hn)
      · rfl
  have hEfresh : ∀ it ∈ (exportData s).edges,
      ∀ r ∈ (((exportData s).nodes).foldl (importNodeStepR now fresh)
        (emptyStore, [], [], 0)).1.rels,
      r.id ≠ it.id.getD "" := by
    intro it _ r hr
    rw [n3] at hr
    exact absurd hr (List.not_mem_nil r)
  have hEsrc : ∀ it ∈ (exportData s).edges, jsTruthy it.source_id = true →
      (((exportData s).nodes).foldl (importNodeStepR now fresh)
        (emptyStore, [], [], 0)).1.nodes.any
        (fun n => some n.id == it.source_id) = true := by
    intro it hit hj
    obtain ⟨e, he, heq⟩ := List.mem_map.mp hit
    have hseq : it.source_id = e.source_id := by rw [← heq]
    rw [hseq] at hj
    obtain ⟨nn, hn, hni⟩ := (getEdges_facts s hWF' e he).2.2.2.1 hj
    have hmem : nn.id ∈ (((exportData s).nodes).foldl (importNodeStepR now fresh)
        (emptyStore, [], [], 0)).1.nodes.map (fun n => n.id) := by
      rw [hNPids]
      exact List.mem_map_of_mem _ hn
    obtain ⟨m, hm, hmi⟩ := List.mem_map.mp hmem
    apply List.any_eq_true.mpr
    refine ⟨m, hm, ?_⟩
    rw [hseq, ← hni, hmi]
    simp
  have hEtgt : ∀ it ∈ (exportData s).edges, jsTruthy it.target_id = true →
      (((exportData s).nodes).foldl (importNodeStepR now fresh)
        (emptyStore, [], [], 0)).1.nodes.any
        (fun n => some n.id == it.target_id) = true := by
    intro it hit hj
    obtain ⟨e, he, heq⟩ := List.mem_map.mp hit
    have hteq : it.target_id = e.target_id := by rw [← heq]
    rw [hteq] at hj
    obtain ⟨nn, hn, hni⟩ := (getEdges_facts s hWF' e he).2.2.2.2 hj
    have hmem : nn.id ∈ (((exportData s).nodes).foldl (importNodeStepR now fresh)
        (emptyStore, [], [], 0)).1.nodes.map (fun n => n.id) := by
      rw [hNPids]
      exact List.mem_map_of_mem _ hn
    obtain ⟨m, hm, hmi⟩ := List.mem_map.mp hmem
    apply List.any_eq_true.mpr
    refine ⟨m, hm, ?_⟩
    rw [hteq, ← hni, hmi]
    simp
  obtain ⟨e1, e2, e3, e4⟩ := importEdgesFoldR now fresh
    ((((exportData s).nodes).foldl (importNodeStepR now fresh)
      (emptyStore, [], [], 0)).2.1)
    (exportData s).edges hEok hEid hEnd
    ((((exportData s).nodes).foldl (importNodeStepR now fresh)
      (emptyStore, [], [], 0)).1)
    [] ((((exportData s).nodes).foldl (importNodeStepR now fresh)
      (emptyStore, [], [], 0)).2.2.1)
    ((((exportData s).nodes).foldl (importNodeStepR now fresh)
      (emptyStore, [], [], 0)).2.2.2)
    hEfresh hEsrc hEtgt
  have hs' : (importFromJson (exportData s) .REPLACE now fresh emptyStore).1 =
      (((exportData s).edges).foldl (importEdgeStepR now fresh
        ((((exportData s).nodes).foldl (importNodeStepR now fresh)
          (emptyStore, [], [], 0)).2.1))
        ((((exportData s).nodes).foldl (importNodeStepR now fresh)
          (emptyStore, [], [], 0)).1, [],
         (((exportData s).nodes).foldl (importNodeStepR now fresh)
           (emptyStore, [], [], 0)).2.2.1,
         (((exportData s).nodes).foldl (importNodeStepR now fresh)
           (emptyStore, [], [], 0)).2.2.2)).1 := by
    unfold importFromJson
    simp only [importNodesPhase_replace_eq, importEdgesPhase_replace_eq]
    rfl
  have hrpN : ∀ v ∈ getNodes s, readProps
      ((((getNodes s).map (fun v =>
        ({ id := some v.id, type := v.type, label := v.label,
           properties := some v.properties } : ImpNode))).map (fun it =>
          ((it.properties.getD []).map (fun kv =>
            PropRow.mk (it.id.getD "") kv.1 kv.2)))).flatten) v.id =
      v.properties := by
    intro v hv
    rw [List.map_map]
    exact readProps_flatten (fun v : NodeView => v.id)
      (fun v : NodeView => v.properties) (getNodes s)
      (by rw [getNodes_map_id]; exact wfN) v hv
      (getNodes_props_nodup s v hv)
  have hrpE : ∀ e ∈ getEdges s, readProps
      ((((getEdges s).map (fun e =>
        ({ id := some e.id, source_id := e.source_id, target_id := e.target_id,
           type := e.type, properties := some e.properties } : ImpEdge))).map
          (fun it => ((it.properties.getD []).map (fun kv =>
            PropRow.mk (it.id.getD "") kv.1 kv.2)))).flatten) e.id =
      e.properties := by
    intro e he
    rw [List.map_map]
    exact readProps_flatten (fun e : EdgeView => e.id)
      (fun e : EdgeView => e.properties) (getEdges s)
      (getEdges_ids_nodup s hWF') e he
      ((getEdges_facts s hWF' e he).2.2.1)
  constructor
  · rw [hs', nodeView_factor, e1, n1, e2, n2]
    rw [show emptyStore.nodes = ([] : List NodeRow) from rfl,
      show emptyStore.nodeProps = ([] : List PropRow) from rfl]
    simp only [List.map_nil, List.nil_append]
    rw [show (exportData s).nodes = (getNodes s).map (fun v =>
      ({ id := some v.id, type := v.type, label := v.label,
         properties := some v.properties } : ImpNode)) from rfl]
    rw [List.map_map, List.map_map]
    unfold nodeView
    apply List.map_congr_left
    intro v hv
    simp only [Function.comp, Option.getD_some]
    rw [if_neg (getNodes_type_ne s v hv)]
    rw [hrpN v hv]
  · rw [hs']
    have hnorel : ∀ r ∈ (((exportData s).edges).foldl (importEdgeStepR now fresh
        ((((exportData s).nodes).foldl (importNodeStepR now fresh)
          (emptyStore, [], [], 0)).2.1))
        ((((exportData s).nodes).foldl (importNodeStepR now fresh)
          (emptyStore, [], [], 0)).1, [],
         (((exportData s).nodes).foldl (importNodeStepR now fresh)
           (emptyStore, [], [], 0)).2.2.1,
         (((exportData s).nodes).foldl (importNodeStepR now fresh)
           (emptyStore, [], [], 0)).2.2.2)).1.rels,
        (r.type == RELAY) = false := by
      intro r hr
      rw [e3] at hr
      rcases List.mem_append.mp hr with h | h
      · rw [n3] at h
        exact absurd h (List.not_mem_nil r)
      · obtain ⟨it, hit, hre⟩ := List.mem_map.mp h
        obtain ⟨e, he, hee⟩ := List.mem_map.mp hit
        have hty := (getEdges_facts s hWF' e he).2.1
        have hrt : r.type = e.type := by
          rw [← hre, ← hee]
        rw [beq_eq_false_iff_ne, hrt]
        exact hty
    unfold edgeView
    rw [getEdges_no_relays _ hnorel]
    rw [List.map_map, e3, n3, e4, n4]
    rw [show emptyStore.rels = ([] : List EdgeRow) from rfl,
      show emptyStore.relProps = ([] : List PropRow) from rfl]
    simp only [List.nil_append]
    rw [show (exportData s).edges = (getEdges s).map (fun e =>
      ({ id := some e.id, source_id := e.source_id, target_id := e.target_id,
         type := e.type, properties := some e.properties } : ImpEdge)) from rfl]
    rw [List.map_map, List.map_map]
    apply List.map_congr_left
    intro e he
    simp only [Function.comp, Option.getD_some]
    rw [hrpE e he]

theorem export_import_roundtrip_witness :
    nodeView (importFromJson (exportData structScenarioStore4) .REPLACE "t2"
      (fun _ => "fresh") emptyStore).1 = nodeView structScenarioStore4 ∧
    edgeView (importFromJson (exportData structScenarioStore4) .REPLACE "t2"
      (fun _ => "fresh") emptyStore).1 = edgeView structScenarioStore4 :=
  export_import_roundtrip structScenarioStore4 (by decide) "t2" (fun _ => "fresh")

theorem deleteNode_cascade_completeness_witness :
    ∃ s', deleteNodeTx "A" .CASCADE structScenarioStore3 = (s', .ok ()) ∧
      (∀ e ∈ s'.rels, edgeTouches "A" e = false) ∧
      (∀ p ∈ s'.relProps, ∀ e ∈ structScenarioStore3.rels,
        edgeTouches "A" e = true → p.owner ≠ e.id) :=
  deleteNode_cascade_completeness structScenarioStore3 (by decide)
    ⟨"A", "person", "Alice", true, "t", "t"⟩ (by decide)

end GraphNote
